import Mathlib

/-!
Verification development for the Tom's Gym email ingestion pipeline
(`Backend/toms_gym/integrations/email_upload.py`).

The Python module is shallowly embedded:
* text is modelled as `String` / `List Char` (Python `str`, ASCII-faithful:
  case folding and the character classes `\w`, `\s` are modelled on the
  ASCII range, which covers every character the pipeline's own literals use);
* Python floats are modelled as exact rationals (`ℚ`);
* the `EmailProcessingLog` table is modelled as a list of rows, the SQL
  statements of the module as explicit list transformations;
* every `except Exception` handler of the source is modelled by explicit
  fault parameters / `Except` results.
-/

namespace TomsGym

/-! ## ASCII text helpers (Python `str.lower`, `\s`, `\w`, `\d`) -/

/-- ASCII lower-casing of one character (model of Python `str.lower` on the
ASCII range). -/
def charLower (c : Char) : Char :=
  if 'A' ≤ c ∧ c ≤ 'Z' then Char.ofNat (c.toNat + 32) else c

/-- Lower-case a character list. -/
def lowerChars (s : List Char) : List Char := s.map charLower

/-- Lower-case a string (model of Python `str.lower`). -/
def strLower (s : String) : String := String.mk (lowerChars s.data)

/-- Python regex `\s` (ASCII part). -/
def isSpaceChar (c : Char) : Bool :=
  c = ' ' ∨ c = '\t' ∨ c = '\n' ∨ c = '\r' ∨ c = '\x0b' ∨ c = '\x0c'

/-- Python regex `\d` (ASCII part). -/
def isDigitChar (c : Char) : Bool := '0' ≤ c ∧ c ≤ '9'

/-- Python regex `\w` (ASCII part). -/
def isWordChar (c : Char) : Bool :=
  ('a' ≤ c ∧ c ≤ 'z') ∨ ('A' ≤ c ∧ c ≤ 'Z') ∨ isDigitChar c ∨ c = '_'

/-- Case-insensitive literal match: strip `pat` (given lower-case) from the
front of `s`, comparing case-insensitively. -/
def dropLitCI (pat : List Char) (s : List Char) : Option (List Char) :=
  match pat, s with
  | [], rest => some rest
  | _ :: _, [] => none
  | p :: ps, c :: cs => if charLower c = p then dropLitCI ps cs else none

/-- Does `sub` occur as a contiguous substring of `s`?  (Python `in`.) -/
def containsSub (sub : List Char) (s : List Char) : Bool :=
  match s with
  | [] => sub.isEmpty
  | _ :: rest => sub.isPrefixOf s || containsSub sub rest

/-- Generic leftmost regex search: try to match at each successive start
position, returning the first success (Python `re.search` discipline). -/
def regexSearch (f : List Char → Option α) : List Char → Option α
  | [] => none
  | c :: cs =>
    match f (c :: cs) with
    | some r => some r
    | none => regexSearch f cs

/-- Digit list to a natural number. -/
def digitsToNat (ds : List Char) : Nat :=
  ds.foldl (fun acc c => acc * 10 + (c.toNat - '0'.toNat)) 0

/-! ## Message Parser: `parse_t30g_message`

Source regex: `t30g\s+(\d+(?:\.\d+)?)\s*(kg|kgs|lbs?|pounds?)?\s*(\w+)?`
with `re.IGNORECASE`, applied with `re.search`.  The parts after the number
are all optional, so a position matches iff it starts with `t30g`, then at
least one whitespace character, then a digit; the unit group takes the first
alternative that matches (`kg`, then `kgs`, then `lbs`, `lb`, `pounds`,
`pound` in backtracking order), and the lift group takes the maximal `\w+`
run after the following whitespace. -/

/-- `LIFT_TYPE_ALIASES` from the source. -/
def LIFT_TYPE_ALIASES : List (String × String) :=
  [("squat", "Squat"), ("sq", "Squat"),
   ("bench", "Bench"), ("bp", "Bench"),
   ("deadlift", "Deadlift"), ("dl", "Deadlift"),
   ("snatch", "Snatch"), ("sn", "Snatch"),
   ("clean", "Clean"), ("c&j", "Clean"), ("cj", "Clean"),
   ("cleanandjerk", "Clean"),
   ("overhead", "Overhead"), ("ohp", "Overhead"), ("press", "Overhead")]

/-- Dictionary lookup with default (Python `dict.get(k, default)`). -/
def aliasLookup (k : String) : String :=
  match LIFT_TYPE_ALIASES.find? (fun p => p.1 = k) with
  | some p => p.2
  | none => "Snatch"

/-- Result of `parse_t30g_message` (`weight_kg` is a Python float, modelled
as an exact rational). -/
structure ParsedTag where
  weight_kg : ℚ
  lift_type : String
  raw_text : String
deriving DecidableEq

/-- Match the number group `\d+(?:\.\d+)?` at the head of `s`; returns the
captured text (`group(1)`) and the rest. -/
def matchNumber (s : List Char) : Option (List Char × List Char) :=
  let intPart := s.takeWhile isDigitChar
  if intPart.isEmpty then none
  else
    match s.drop intPart.length with
    | '.' :: tl =>
      let fracPart := tl.takeWhile isDigitChar
      if fracPart.isEmpty then
        -- `(?:\.\d+)?` fails, group is just the integer digits
        some (intPart, s.drop intPart.length)
      else
        some (intPart ++ '.' :: fracPart, tl.drop fracPart.length)
    | _ => some (intPart, s.drop intPart.length)

/-- Python `float()` of a captured `\d+(?:\.\d+)?` group (exact value). -/
def pyFloatOfDigits (g : List Char) : ℚ :=
  let ip := g.takeWhile (fun c => c ≠ '.')
  match g.drop ip.length with
  | '.' :: fp => (digitsToNat ip : ℚ) + (digitsToNat fp : ℚ) / (10 : ℚ) ^ fp.length
  | _ => (digitsToNat ip : ℚ)

/-- Match the unit group `(kg|kgs|lbs?|pounds?)?` at the head of `s`,
trying alternatives in the regex's backtracking order; returns the
lower-cased captured text and the rest. -/
def matchUnit (s : List Char) : Option (String × List Char) :=
  match dropLitCI ['k', 'g'] s with
  | some rest => some ("kg", rest)
  | none =>
  match dropLitCI ['k', 'g', 's'] s with
  | some rest => some ("kgs", rest)
  | none =>
  match dropLitCI ['l', 'b', 's'] s with
  | some rest => some ("lbs", rest)
  | none =>
  match dropLitCI ['l', 'b'] s with
  | some rest => some ("lb", rest)
  | none =>
  match dropLitCI ['p', 'o', 'u', 'n', 'd', 's'] s with
  | some rest => some ("pounds", rest)
  | none =>
  match dropLitCI ['p', 'o', 'u', 'n', 'd'] s with
  | some rest => some ("pound", rest)
  | none => none

/-- Round a Python float to 2 decimal places (`round(x, 2)`; Python rounds
half to even). -/
def round2 (q : ℚ) : ℚ :=
  let x : ℚ := q * 100
  let f : ℤ := ⌊x⌋
  let n : ℤ :=
    if x - f < 1/2 then f
    else if (1:ℚ)/2 < x - f then f + 1
    else if f % 2 = 0 then f else f + 1
  (n : ℚ) / 100

/-- Is the first character a digit?  (`\d` test used to decide whether the
mandatory number group can start.) -/
def headIsDigit : List Char → Bool
  | [] => false
  | d :: _ => isDigitChar d

/-- Try the whole `t30g` pattern at the head of `s`; results are the
captured texts of the three groups. -/
def matchT30gAt (s : List Char) : Option (List Char × Option String × Option String) :=
  match dropLitCI ['t', '3', '0', 'g'] s with
  | none => none
  | some r1 =>
    if (r1.takeWhile isSpaceChar).isEmpty then none
    else
      match matchNumber (r1.drop (r1.takeWhile isSpaceChar).length) with
      | none => none
      | some (g1, r2) =>
        let r3 := r2.drop (r2.takeWhile isSpaceChar).length
        let (unit, r4) :=
          match matchUnit r3 with
          | some (u, r) => (some u, r)
          | none => (none, r3)
        let r5 := r4.drop (r4.takeWhile isSpaceChar).length
        let w6 := r5.takeWhile isWordChar
        let lift := if w6.isEmpty then none else some (String.mk w6)
        some (g1, unit, lift)

/-- `parse_t30g_message` from the source. -/
def parse_t30g_message (text : String) : Option ParsedTag :=
  match regexSearch matchT30gAt text.data with
  | none => none
  | some (g1, unit, liftRaw) =>
    let unitStr := strLower (unit.getD "kg")
    let w := pyFloatOfDigits g1
    let weight :=
      if strToLbs unitStr then round2 (w * (453592 / 1000000 : ℚ)) else w
    let lift := aliasLookup (strLower (liftRaw.getD "snatch"))
    some ⟨weight, lift, text⟩
where
  /-- `unit.startswith('lb') or unit == 'pounds'` from the source. -/
  strToLbs (u : String) : Bool :=
    (['l', 'b'].isPrefixOf u.data) || u = "pounds"

/-- Independent statement that the `t30g` directive occurs somewhere in the
text: `t30g`, at least one whitespace character, then a digit.  (Because
every later group of the source regex is optional, this is exactly when the
regex matches.) -/
def hasT30gDirective : List Char → Bool
  | [] => false
  | c :: cs => directiveHead (c :: cs) || hasT30gDirective cs
where
  directiveHead (s : List Char) : Bool :=
    match dropLitCI ['t', '3', '0', 'g'] s with
    | none => false
    | some rest =>
      !(rest.takeWhile isSpaceChar).isEmpty &&
        headIsDigit (rest.drop (rest.takeWhile isSpaceChar).length)

/-! ## Fingerprint: `_compute_email_fingerprint`

`payload = f"{from_email}|{subject}|{date}|{body[:500]}"` followed by
`hashlib.sha256(payload.encode('utf-8')).hexdigest()`.  SHA-256 is
implemented below over `Nat` words reduced mod `2^32`. -/

/-- Word size modulus for SHA-256 arithmetic. -/
def w32 : Nat := 4294967296

/-- 32-bit right rotation. -/
def rotr32 (n x : Nat) : Nat := ((x >>> n) ||| (x <<< (32 - n))) % w32

/-- SHA-256 message-schedule sigma0. -/
def ssig0 (x : Nat) : Nat := (rotr32 7 x) ^^^ (rotr32 18 x) ^^^ (x >>> 3)

/-- SHA-256 message-schedule sigma1. -/
def ssig1 (x : Nat) : Nat := (rotr32 17 x) ^^^ (rotr32 19 x) ^^^ (x >>> 10)

/-- SHA-256 compression Sigma0. -/
def bsig0 (x : Nat) : Nat := (rotr32 2 x) ^^^ (rotr32 13 x) ^^^ (rotr32 22 x)

/-- SHA-256 compression Sigma1. -/
def bsig1 (x : Nat) : Nat := (rotr32 6 x) ^^^ (rotr32 11 x) ^^^ (rotr32 25 x)

/-- SHA-256 choice function. -/
def sha2Ch (x y z : Nat) : Nat := (x &&& y) ^^^ ((x ^^^ (w32 - 1)) &&& z)

/-- SHA-256 majority function. -/
def sha2Maj (x y z : Nat) : Nat := (x &&& y) ^^^ (x &&& z) ^^^ (y &&& z)

/-- SHA-256 round constants. -/
def sha2K : List Nat :=
  [1116352408, 1899447441, 3049323471, 3921009573,
   961987163, 1508970993, 2453635748, 2870763221,
   3624381080, 310598401, 607225278, 1426881987,
   1925078388, 2162078206, 2614888103, 3248222580,
   3835390401, 4022224774, 264347078, 604807628,
   770255983, 1249150122, 1555081692, 1996064986,
   2554220882, 2821834349, 2952996808, 3210313671,
   3336571891, 3584528711, 113926993, 338241895,
   666307205, 773529912, 1294757372, 1396182291,
   1695183700, 1986661051, 2177026350, 2456956037,
   2730485921, 2820302411, 3259730800, 3345764771,
   3516065817, 3600352804, 4094571909, 275423344,
   430227734, 506948616, 659060556, 883997877,
   958139571, 1322822218, 1537002063, 1747873779,
   1955562222, 2024104815, 2227730452, 2361852424,
   2428436474, 2756734187, 3204031479, 3329325298]

/-- SHA-256 initial hash state. -/
def sha2H0 : List Nat :=
  [1779033703, 3144134277, 1013904242, 2773480762,
   1359893119, 2600822924, 528734635, 1541459225]

/-- Big-endian bytes (most significant first) of a value, `k` bytes wide. -/
def natToBytesBE (k : Nat) (n : Nat) : List Nat :=
  match k with
  | 0 => []
  | k + 1 => natToBytesBE k (n / 256) ++ [n % 256]

/-- Group 4 bytes into one big-endian 32-bit word each. -/
def bytesToWords : List Nat → List Nat
  | b0 :: b1 :: b2 :: b3 :: rest =>
    (((b0 * 256 + b1) * 256 + b2) * 256 + b3) :: bytesToWords rest
  | _ => []

/-- SHA-256 padding: append `0x80`, zeros to 56 mod 64, then the bit length
as 8 big-endian bytes. -/
def sha2Pad (msg : List Nat) : List Nat :=
  let len := msg.length
  let zeros := (120 - (len + 1) % 64) % 64
  msg ++ [0x80] ++ List.replicate zeros 0 ++ natToBytesBE 8 (len * 8)

/-- Extend 16 schedule words by `n` more words. -/
def extendSchedule (ws : List Nat) : Nat → List Nat
  | 0 => ws
  | n + 1 =>
    let l := ws.length
    let nw := (ssig1 (ws.getD (l - 2) 0) + ws.getD (l - 7) 0 +
               ssig0 (ws.getD (l - 15) 0) + ws.getD (l - 16) 0) % w32
    extendSchedule (ws ++ [nw]) n

/-- One SHA-256 compression round. -/
def sha2Round (st : List Nat) (kw : Nat × Nat) : List Nat :=
  match st with
  | [a, b, c, d, e, f, g, h] =>
    let t1 := (h + bsig1 e + sha2Ch e f g + kw.1 + kw.2) % w32
    let t2 := (bsig0 a + sha2Maj a b c) % w32
    [(t1 + t2) % w32, a, b, c, (d + t1) % w32, e, f, g]
  | other => other

/-- Process one 64-byte block. -/
def sha2Block (h : List Nat) (block : List Nat) : List Nat :=
  let ws := extendSchedule (bytesToWords block) 48
  let st := (sha2K.zip ws).foldl sha2Round h
  (h.zip st).map (fun p => (p.1 + p.2) % w32)

/-- Split a byte list into 64-byte chunks (fuel-structured so that it
reduces; `fuel = l.length` always suffices since each step drops at least
one element of a non-empty list). -/
def chunks64Go : Nat → List Nat → List (List Nat)
  | 0, _ => []
  | _, [] => []
  | fuel + 1, c :: cs => ((c :: cs).take 64) :: chunks64Go fuel ((c :: cs).drop 64)

/-- Split a byte list into 64-byte chunks. -/
def chunks64 (l : List Nat) : List (List Nat) := chunks64Go l.length l

/-- SHA-256 of a byte list, as the 8 final 32-bit words. -/
def sha256Words (msg : List Nat) : List Nat :=
  (chunks64 (sha2Pad msg)).foldl sha2Block sha2H0

/-- Lower-case hex digit for a nibble. -/
def hexDigit (n : Nat) : Char :=
  if n < 10 then Char.ofNat ('0'.toNat + n)
  else Char.ofNat ('a'.toNat + (n - 10))

/-- Lower-case hex rendering of one 32-bit word (8 digits). -/
def wordToHex (x : Nat) : List Char :=
  (List.range 8).map (fun i => hexDigit ((x >>> ((7 - i) * 4)) % 16))

/-- `hashlib.sha256(bytes).hexdigest()`. -/
def sha256Hex (msg : List Nat) : String :=
  String.mk ((sha256Words msg).flatMap wordToHex)

/-- UTF-8 encoding of one character (`str.encode('utf-8')`). -/
def utf8Char (c : Char) : List Nat :=
  let n := c.toNat
  if n < 0x80 then [n]
  else if n < 0x800 then
    [0xc0 ||| (n >>> 6), 0x80 ||| (n &&& 0x3f)]
  else if n < 0x10000 then
    [0xe0 ||| (n >>> 12), 0x80 ||| ((n >>> 6) &&& 0x3f), 0x80 ||| (n &&& 0x3f)]
  else
    [0xf0 ||| (n >>> 18), 0x80 ||| ((n >>> 12) &&& 0x3f),
     0x80 ||| ((n >>> 6) &&& 0x3f), 0x80 ||| (n &&& 0x3f)]

/-- UTF-8 encoding of a character list. -/
def utf8Encode (s : List Char) : List Nat := s.flatMap utf8Char

/-- `_compute_email_fingerprint` from the source: SHA-256 hexdigest of
`f"{from_email}|{subject}|{date}|{body[:500]}"` (the body truncated to its
first 500 characters). -/
def computeEmailFingerprint (from_email subject date body : String) : String :=
  let payload : List Char :=
    from_email.data ++ '|' :: subject.data ++ '|' :: date.data ++
      '|' :: body.data.take 500
  sha256Hex (utf8Encode payload)

/-! ## Reservation Store: the `EmailProcessingLog` ledger

The table created by `_ensure_email_dedupe_table` has UNIQUE constraints on
both `fingerprint` and `message_id`, and `_reserve_email_processing` inserts
with `ON CONFLICT (fingerprint) DO NOTHING`: a fingerprint conflict is
silently absorbed, while a `message_id` conflict on a fresh fingerprint
raises, landing in the function's catch-all handler which returns
`(False, None)`.  Every `except Exception` handler is modelled by an
explicit fault parameter naming the statement at which the store throws. -/

/-- `status` values written by the module. -/
inductive EmailStatus
  | processing
  | succeeded
  | failed
deriving DecidableEq

/-- One row of `EmailProcessingLog` (timestamps in seconds). -/
structure EmailRec where
  id : String
  message_id : Option String
  fingerprint : String
  status : EmailStatus
  error : Option String
  created_at : Int
  updated_at : Int
deriving DecidableEq

/-- The ledger table content. -/
abbrev Ledger : Type := List EmailRec

/-- `SELECT ... WHERE fingerprint = :fingerprint LIMIT 1`. -/
def findByFp : Ledger → String → Option EmailRec
  | [], _ => none
  | r :: rs, fp => if r.fingerprint = fp then some r else findByFp rs fp

/-- Is some row already carrying this fingerprint? -/
def fpTaken (L : Ledger) (fp : String) : Bool := (findByFp L fp).isSome

/-- Is some row already carrying this id? -/
def idTaken (L : Ledger) (i : String) : Bool :=
  (List.any L fun r => r.id == i)

/-- Would inserting `(message_id := mid)` violate the UNIQUE constraint on
`message_id`?  (NULL never conflicts.) -/
def msgidTaken (L : Ledger) (mid : Option String) : Bool :=
  match mid with
  | none => false
  | some m => List.any L fun r => r.message_id == some m

/-- Points at which the store can throw inside `_reserve_email_processing`
(table creation, the conditional INSERT, the follow-up SELECT, the retry
UPDATE). -/
inductive FaultPt
  | atEnsure
  | atInsert
  | atRead
  | atUpdate
deriving DecidableEq

/-- The retry flip: `UPDATE ... SET status='processing', error=NULL,
updated_at=:now WHERE id=:id`. -/
def flipToProcessing (i : String) (now : Int) (L : Ledger) : Ledger :=
  List.map (fun x => if x.id = i then
    { x with status := .processing, error := none, updated_at := now }
    else x) L

/-- `_reserve_email_processing` from the source, over ledger `L`, with the
dedupe window in minutes, the current time `now` (seconds), and the fresh
UUID `newId` that `uuid.uuid4()` produced.  Returns the
`(should_process, record_id)` pair and the resulting ledger.  `fault`
injects a store exception at the named statement; the catch-all handler of
the source turns any of these into `(False, None)` with the failed
statement's transaction rolled back. -/
def reserveRun (fault : Option FaultPt) (window now : Int)
    (message_id : Option String) (fingerprint : String) (newId : String)
    (L : Ledger) : (Bool × Option String) × Ledger :=
  if fault = some .atEnsure then ((false, none), L)
  else if fault = some .atInsert then ((false, none), L)
  else
    match findByFp L fingerprint with
    | none =>
      -- no fingerprint conflict: the INSERT proceeds; a message_id
      -- collision now violates the other UNIQUE constraint and raises
      if msgidTaken L message_id then ((false, none), L)
      else ((true, some newId),
            L ++ [⟨newId, message_id, fingerprint, .processing, none, now, now⟩])
    | some r =>
      -- ON CONFLICT (fingerprint) DO NOTHING: no row returned, fall through
      -- to the SELECT of the existing row
      if fault = some .atRead then ((false, none), L)
      else if r.status = .succeeded then ((false, some r.id), L)
      else if r.status = .processing ∧ now - r.updated_at < window * 60 then
        ((false, some r.id), L)
      else if fault = some .atUpdate then ((false, none), L)
      else ((true, some r.id), flipToProcessing r.id now L)

/-- `_update_email_processing_status` from the source: no-op on a missing
record id, otherwise `UPDATE ... SET status, error, updated_at WHERE id`;
its catch-all handler (modelled by `fault`) swallows store errors. -/
def finalizeRun (fault : Bool) (record_id : Option String)
    (status : EmailStatus) (error : Option String) (now : Int)
    (L : Ledger) : Ledger :=
  match record_id with
  | none => L
  | some i =>
    if fault then L
    else List.map (fun x => if x.id = i then
      { x with status := status, error := error, updated_at := now }
      else x) L

/-! ## Ledger well-formedness -/

/-- At most one row per fingerprint. -/
def uniqueFp : Ledger → Prop
  | [] => True
  | r :: rs => fpTaken rs r.fingerprint = false ∧ uniqueFp rs

/-- At most one row per id. -/
def uniqueId : Ledger → Prop
  | [] => True
  | r :: rs => idTaken rs r.id = false ∧ uniqueId rs

instance uniqueFpDec : (L : Ledger) → Decidable (uniqueFp L)
  | [] => .isTrue trivial
  | _ :: rs =>
    have := uniqueFpDec rs
    inferInstanceAs (Decidable (_ ∧ _))

instance uniqueIdDec : (L : Ledger) → Decidable (uniqueId L)
  | [] => .isTrue trivial
  | _ :: rs =>
    have := uniqueIdDec rs
    inferInstanceAs (Decidable (_ ∧ _))

/-! ## Parser: `extract_email_address` and `extract_original_sender` -/

/-- Character class `[\w\.-]` of the bare-email regex. -/
def isEmailChar (c : Char) : Bool := isWordChar c || c = '.' || c = '-'

/-- Leftmost match of `<([^>]+)>`, returning the captured group.  At a `<`
the capture is the (non-empty) run of non-`>` characters, provided a closing
`>` follows; otherwise the search continues at the next position. -/
def angleCapture : List Char → Option (List Char)
  | [] => none
  | '<' :: rest =>
    let content := rest.takeWhile (fun c => c ≠ '>')
    if content.isEmpty || content.length = rest.length
    then angleCapture rest
    else some content
  | _ :: rest => angleCapture rest

/-- Find the largest `p ≥ 1` such that `run.get p = '.'` and the next
character is a word character: the backtracking point of
`[\w\.-]+\.\w+` inside the maximal `[\w\.-]` run after `@`. -/
def findDotSplit (run : List Char) : Nat → Option Nat
  | 0 => none
  | p + 1 =>
    if run.getD (p + 1) '@' = '.' ∧ isWordChar (run.getD (p + 2) '@')
    then some (p + 1)
    else findDotSplit run p

/-- Match the bare-email regex `[\w\.-]+@[\w\.-]+\.\w+` anchored at the head
of `s`, returning the matched text (`group(0)`). -/
def matchBareEmailAt (s : List Char) : Option (List Char) :=
  let run1 := s.takeWhile isEmailChar
  if run1.isEmpty then none
  else
    match s.drop run1.length with
    | '@' :: tl =>
      let run2 := tl.takeWhile isEmailChar
      match findDotSplit run2 run2.length with
      | none => none
      | some p =>
        let wordRun := (run2.drop (p + 1)).takeWhile isWordChar
        some (run1 ++ '@' :: run2.take p ++ '.' :: wordRun)
    | _ => none

/-- `extract_email_address` from the source: prefer the `<...>` capture,
else the leftmost bare-email match, else the whole header; lower-cased. -/
def extract_email_address (from_header : String) : String :=
  match angleCapture from_header.data with
  | some g => String.mk (lowerChars g)
  | none =>
    match regexSearch matchBareEmailAt from_header.data with
    | some m => String.mk (lowerChars m)
    | none => strLower from_header

/-- One backtracking attempt of `From:\s*([^\n<]+<[^>]+>)` with `k`
whitespace characters consumed by `\s*`: a non-empty run of
non-newline/non-`<` characters, a `<`, a non-empty run of non-`>`
characters, and a closing `>`. -/
def p1AtOffset (rest : List Char) (k : Nat) : Option (List Char) :=
  let s := rest.drop k
  let name := s.takeWhile (fun c => c ≠ '\n' ∧ c ≠ '<')
  match s.drop name.length with
  | '<' :: tl =>
    let inner := tl.takeWhile (fun c => c ≠ '>')
    if name.isEmpty || inner.isEmpty || inner.length = tl.length then none
    else some (name ++ '<' :: inner ++ ['>'])
  | _ => none

/-- Greedy-with-backtracking `\s*` of the first forwarded-`From:` pattern:
try consuming `k` whitespace characters, from the maximal run downward. -/
def p1Back (rest : List Char) : Nat → Option (List Char)
  | 0 => p1AtOffset rest 0
  | k + 1 =>
    match p1AtOffset rest (k + 1) with
    | some r => some r
    | none => p1Back rest k

/-- Match `From:\s*([^\n<]+<[^>]+>)` (case-insensitive) at the head of `s`,
returning `group(1)`. -/
def matchForwardedAngleAt (s : List Char) : Option (List Char) :=
  match dropLitCI ['f', 'r', 'o', 'm', ':'] s with
  | none => none
  | some rest => p1Back rest (rest.takeWhile isSpaceChar).length

/-- Match `From:\s*([\w\.-]+@[\w\.-]+\.\w+)` (case-insensitive) at the head
of `s`, returning `group(1)`.  Since no whitespace character belongs to
`[\w\.-]`, the `\s*` here deterministically consumes the maximal run. -/
def matchForwardedBareAt (s : List Char) : Option (List Char) :=
  match dropLitCI ['f', 'r', 'o', 'm', ':'] s with
  | none => none
  | some rest => matchBareEmailAt (rest.drop (rest.takeWhile isSpaceChar).length)

/-- `extract_original_sender` from the source: search the body for a
forwarded `From:` line (name-plus-angle-bracket first, then bare email) and
run `extract_email_address` on the capture; fall back to the forwarder. -/
def extract_original_sender (body : String) (forwarder_email : String) : String :=
  match regexSearch matchForwardedAngleAt body.data with
  | some g => extract_email_address (String.mk g)
  | none =>
    match regexSearch matchForwardedBareAt body.data with
    | some g => extract_email_address (String.mk g)
    | none => forwarder_email

/-! ## Orchestrator: `process_email`

The `email.message.Message` object is modelled by its decoded header
fields, the result of `get_email_body` and the result of
`get_video_attachments` (both of which walk the MIME library object and can
raise on malformed parts, modelled with `Except`).  The database and HTTP
collaborators — each of which swallows its own store errors and returns
`None`/raises exactly as in the source — are modelled by an environment of
per-attempt behaviours.  Every externally visible action of one processing
attempt is recorded in an effect trace. -/

/-- One video attachment as produced by `get_video_attachments`. -/
structure VideoAttachment where
  filename : String
  content_type : String
  size : Nat
deriving DecidableEq

/-- JSON result of the `/upload` collaborator. -/
structure UploadResult where
  attempt_id : String
  url : String
deriving DecidableEq

/-- One incoming message (headers already MIME-decoded;
`messageId` already stripped of `<>`). -/
structure EmailMsg where
  fromHeader : String
  subject : String
  autoSubmitted : String
  precedence : String
  customHeader : String
  messageId : Option String
  dateHeader : String
  bodyR : Except String String
  attachmentsR : Except String (List VideoAttachment)

/-- Module configuration read from the environment. -/
structure EmailConfig where
  emailUsername : String
  dedupeWindowMinutes : Int

/-- Behaviour of the collaborators during one processing attempt:
`lookupUser` is `lookup_user_by_email`, `createUser` is
`create_user_from_email` (returns `none` on any insert failure, including a
uniqueness violation lost to a concurrent creator), `enrollResult` is
`add_user_to_competition`, `competition` is
`get_active_competition_with_details`, `uploadResult` is
`upload_video_to_backend` (which raises on any HTTP failure). -/
structure AttemptEnv where
  reserveFault : Option FaultPt
  finalizeFault : Bool
  now : Int
  finalizeNow : Int
  newRecordId : String
  competition : Option (String × String)
  lookupUser : String → Option String
  createUser : String → Option String
  enrollResult : Option String
  uploadResult : Except String UploadResult

/-- Externally visible calls made by one processing attempt, in order. -/
inductive EmailEffect
  | reserveCall (fingerprint : String) (should : Bool)
  | finalizeCall (recordId : Option String) (status : EmailStatus) (error : Option String)
  | notifyCall (toEmail : String) (success : Bool) (error : Option String)
  | lookupCall (email : String) (found : Bool)
  | createUserCall (email : String) (created : Bool)
  | enrollCall (userId : String) (competitionId : String) (ok : Bool)
  | uploadCall (userId competitionId liftType : String) (weightKg : ℚ)
deriving DecidableEq

/-- Terminal path taken by one processing attempt. -/
inductive EmailPath
  | skipHeader
  | skipAuto
  | skipPrecedence
  | skipSelf
  | skipDuplicate
  | noCompetition
  | noAttachment
  | userCreateFailed
  | uploadOk
  | uploadFailed
  | raisedBody
  | raisedAttachments
deriving DecidableEq

deriving instance DecidableEq for Except

/-- Result of one `process_email` call: the `(success, message)` pair (or
the exception that escaped), the terminal path, the effect trace, and the
resulting ledger. -/
structure ProcessResult where
  outcome : Except String (Bool × String)
  path : EmailPath
  effects : List EmailEffect
  ledger : Ledger
deriving DecidableEq

/-- Subject marker of success confirmations. -/
def confMarkerOk : List Char := "✅ Tom's Gym".data

/-- Subject marker of failure confirmations. -/
def confMarkerFail : List Char := "❌ Tom's Gym".data

/-- The upload step of `process_email` (shared by every user-resolution
path): call `upload_video_to_backend`; on success notify and finalize
`succeeded`, on exception notify and finalize `failed`. -/
def uploadStep (env : AttemptEnv) (forwarder competitionId : String)
    (metadata : ParsedTag) (uid : String) (effs : List EmailEffect)
    (rid : Option String) (L1 : Ledger) : ProcessResult :=
  let effs1 := effs ++ [.uploadCall uid competitionId metadata.lift_type metadata.weight_kg]
  match env.uploadResult with
  | .ok r =>
    ⟨.ok (true, "Upload successful: " ++ r.attempt_id), .uploadOk,
      effs1 ++ [.notifyCall forwarder true none, .finalizeCall rid .succeeded none],
      finalizeRun env.finalizeFault rid .succeeded none env.finalizeNow L1⟩
  | .error e =>
    let err := "Upload failed: " ++ e
    ⟨.ok (false, err), .uploadFailed,
      effs1 ++ [.notifyCall forwarder false (some err), .finalizeCall rid .failed (some err)],
      finalizeRun env.finalizeFault rid .failed (some err) env.finalizeNow L1⟩

/-- User resolution of `process_email`: look up the original sender, then
the forwarder; failing both, auto-create (original sender first, forwarder
second) and enroll the new user; if both creations fail, terminal failure
without finalize. -/
def resolveAndUpload (env : AttemptEnv) (forwarder competitionId : String)
    (metadata : ParsedTag) (userEmail : String) (effs : List EmailEffect)
    (rid : Option String) (L1 : Ledger) : ProcessResult :=
  let u1 := env.lookupUser userEmail
  let effs1 := effs ++ [.lookupCall userEmail u1.isSome]
  match u1 with
  | some uid => uploadStep env forwarder competitionId metadata uid effs1 rid L1
  | none =>
    let u2 := env.lookupUser forwarder
    let effs2 := effs1 ++ [.lookupCall forwarder u2.isSome]
    match u2 with
    | some uid => uploadStep env forwarder competitionId metadata uid effs2 rid L1
    | none =>
      let c1 := env.createUser userEmail
      let effs3 := effs2 ++ [.createUserCall userEmail c1.isSome]
      let afterCreate := fun (uid : String) (effs' : List EmailEffect) =>
        let effs'' := effs' ++ [.enrollCall uid competitionId env.enrollResult.isSome]
        uploadStep env forwarder competitionId metadata uid effs'' rid L1
      match c1 with
      | some uid => afterCreate uid effs3
      | none =>
        let c2 := env.createUser forwarder
        let effs4 := effs3 ++ [.createUserCall forwarder c2.isSome]
        match c2 with
        | some uid => afterCreate uid effs4
        | none =>
          let err := "Failed to create user account for " ++ userEmail ++
            ". Please try again or register manually."
          ⟨.ok (false, err), .userCreateFailed,
            effs4 ++ [.notifyCall forwarder false (some err)], L1⟩

/-- `process_email` after the loop guard: fingerprint, reservation,
competition lookup, tag parse (with competition defaults), attachment
check, user resolution, upload. -/
def processEmailAfterGuard (cfg : EmailConfig) (env : AttemptEnv)
    (msg : EmailMsg) (forwarder subject body : String) (L : Ledger) :
    ProcessResult :=
  let fp := computeEmailFingerprint forwarder subject msg.dateHeader body
  let res := reserveRun env.reserveFault cfg.dedupeWindowMinutes env.now
    msg.messageId fp env.newRecordId L
  let should := res.1.1
  let rid := res.1.2
  let L1 := res.2
  let effs : List EmailEffect := [.reserveCall fp should]
  if should = false then
    ⟨.ok (true, "Skipped duplicate email"), .skipDuplicate, effs, L1⟩
  else
    match env.competition with
    | none =>
      -- terminal failure with a notification but no finalize call
      ⟨.ok (false, "No active competition found"), .noCompetition,
        effs ++ [.notifyCall forwarder false (some "No active competition found")], L1⟩
    | some comp =>
      let metadata := (parse_t30g_message body).getD ⟨90, comp.2, body⟩
      match msg.attachmentsR with
      | .error e => ⟨.error e, .raisedAttachments, effs, L1⟩
      | .ok atts =>
        if atts.isEmpty then
          let err := "No video attachment found"
          ⟨.ok (false, err), .noAttachment,
            effs ++ [.notifyCall forwarder false (some err),
                     .finalizeCall rid .failed (some err)],
            finalizeRun env.finalizeFault rid .failed (some err) env.finalizeNow L1⟩
        else
          let userEmail := extract_original_sender body forwarder
          resolveAndUpload env forwarder comp.1 metadata userEmail effs rid L1

/-- `process_email` from the source: the loop/self-mail guard in source
order (reserved marker header, `Auto-Submitted`, `Precedence`, self-sent
with confirmation-marked subject), then the processing pipeline. -/
def processEmail (cfg : EmailConfig) (env : AttemptEnv) (msg : EmailMsg)
    (L : Ledger) : ProcessResult :=
  let forwarder := extract_email_address msg.fromHeader
  if strLower msg.customHeader = "confirmation" then
    ⟨.ok (true, "Skipped confirmation email"), .skipHeader, [], L⟩
  else if ¬(strLower msg.autoSubmitted = "") ∧ ¬(strLower msg.autoSubmitted = "no") then
    ⟨.ok (true, "Skipped auto-submitted email"), .skipAuto, [], L⟩
  else if strLower msg.precedence = "auto_reply" ∨ strLower msg.precedence = "bulk" ∨
          strLower msg.precedence = "junk" ∨ strLower msg.precedence = "list" then
    ⟨.ok (true, "Skipped auto-reply email"), .skipPrecedence, [], L⟩
  else if ¬(forwarder = "") ∧ strLower forwarder = strLower cfg.emailUsername ∧
          (containsSub confMarkerOk msg.subject.data ∨
           containsSub confMarkerFail msg.subject.data) then
    ⟨.ok (true, "Skipped confirmation email"), .skipSelf, [], L⟩
  else
    match msg.bodyR with
    | .error e => ⟨.error e, .raisedBody, [], L⟩
    | .ok body => processEmailAfterGuard cfg env msg forwarder msg.subject body L

/-! ## Poller: `check_inbox`

One poll tick over the unseen-message batch: each message is fetched with
`BODY.PEEK` (which does not mark it seen), processed, counted, and marked
seen (`+FLAGS \Seen`) only when `process_email` returned success; an
exception from a single message is caught, counted as a failure, and the
loop continues with the next message. -/

/-- Result of one poll tick. -/
structure TickResult where
  processedCount : Nat
  succeededCount : Nat
  failedCount : Nat
  errors : List String
  seenFlags : List Bool
  perMessage : List ProcessResult
  ledger : Ledger
deriving DecidableEq

/-- `check_inbox`'s message loop: the batch pairs each unseen message with
the collaborator behaviour its attempt will see.  `seenFlags` records, per
message, whether the tick marked it seen (all batch messages start unseen —
they came from an `UNSEEN` search and are fetched by peeking). -/
def checkInbox (cfg : EmailConfig) :
    List (EmailMsg × AttemptEnv) → Ledger → TickResult
  | [], L => ⟨0, 0, 0, [], [], [], L⟩
  | me :: rest, L =>
    let r := processEmail cfg me.2 me.1 L
    let tail := checkInbox cfg rest r.ledger
    match r.outcome with
    | .ok sm =>
      ⟨tail.processedCount + 1,
       tail.succeededCount + (if sm.1 then 1 else 0),
       tail.failedCount + (if sm.1 then 0 else 1),
       (if sm.1 then [] else [sm.2]) ++ tail.errors,
       sm.1 :: tail.seenFlags,
       r :: tail.perMessage,
       tail.ledger⟩
    | .error e =>
      ⟨tail.processedCount, tail.succeededCount, tail.failedCount + 1,
       e :: tail.errors,
       false :: tail.seenFlags,
       r :: tail.perMessage,
       tail.ledger⟩

/-! ## Trace observations -/

/-- The `(fingerprint, should_process)` pairs of the reservation calls in
an effect trace. -/
def reservesOf (effs : List EmailEffect) : List (String × Bool) :=
  effs.filterMap fun e =>
    match e with
    | .reserveCall fp b => some (fp, b)
    | _ => none

/-- Number of `_update_email_processing_status` calls in a trace. -/
def finalizeCount (effs : List EmailEffect) : Nat :=
  effs.countP fun e =>
    match e with
    | .finalizeCall _ _ _ => true
    | _ => false

/-- Number of `send_confirmation_email` calls in a trace. -/
def notifyCount (effs : List EmailEffect) : Nat :=
  effs.countP fun e =>
    match e with
    | .notifyCall _ _ _ => true
    | _ => false

/-- All effects of a tick, in message order. -/
def tickEffects (t : TickResult) : List EmailEffect :=
  t.perMessage.flatMap ProcessResult.effects

/-- Along a batch, every attempt's freshly drawn `uuid4` record id is
unused in the ledger state that attempt runs against. -/
def freshIdsBatch (cfg : EmailConfig) :
    List (EmailMsg × AttemptEnv) → Ledger → Prop
  | [], _ => True
  | me :: rest, L =>
    idTaken L me.2.newRecordId = false ∧
      freshIdsBatch cfg rest (processEmail cfg me.2 me.1 L).ledger

/-- Did the run's guard skip the message? -/
def guardSkipped (r : ProcessResult) : Prop :=
  r.path = .skipHeader ∨ r.path = .skipAuto ∨
    r.path = .skipPrecedence ∨ r.path = .skipSelf

/-- Success-or-skip outcome of one attempt (what `check_inbox` treats as
`success`, i.e. when it marks the message seen). -/
def okOutcome (r : ProcessResult) : Bool :=
  match r.outcome with
  | .ok sm => sm.1
  | .error _ => false

/-- The user-identity calls of a trace (lookups and creations), in order. -/
inductive UserResolutionStep
  | lookedUp (email : String) (found : Bool)
  | created (email : String) (ok : Bool)
deriving DecidableEq

/-- Project the user-identity calls out of an effect trace. -/
def userStepsOf (effs : List EmailEffect) : List UserResolutionStep :=
  effs.filterMap fun e =>
    match e with
    | .lookupCall a b => some (.lookedUp a b)
    | .createUserCall a b => some (.created a b)
    | _ => none

/-! ## Concrete fixtures (used by witnesses and counterexamples) -/

/-- A ledger row that has reached `succeeded`. -/
def recS : EmailRec := ⟨"idS", none, "fpS", .succeeded, none, 0, 0⟩

/-- A one-row ledger holding a `succeeded` record. -/
def ledgerS : Ledger := [recS]

/-- A sample module configuration. -/
def cfgA : EmailConfig := ⟨"gym.uploads@example.com", 30⟩

/-- A sample healthy collaborator environment: an active competition, no
known users, user creation succeeding, upload succeeding. -/
def envA : AttemptEnv :=
  ⟨none, false, 100, 200, "newidA", some ("comp1", "Squat"),
   fun _ => none, fun _ => some "userA", some "uc1",
   .ok ⟨"att1", "http://videos/att1"⟩⟩

/-- A sample ordinary incoming message with a tag and one attachment. -/
def msgA : EmailMsg :=
  ⟨"alice@example.com", "lift video", "", "", "", none, "Mon, 1 Jan",
   .ok "hello t30g 100kg squat", .ok [⟨"v.mp4", "video/mp4", 5⟩]⟩

/-- A message whose body extraction raises (e.g. an unknown charset in a
MIME part). -/
def msgThrow : EmailMsg :=
  ⟨"bob@example.com", "borked", "", "", "", none, "Tue, 2 Jan",
   .error "boom", .ok []⟩

/-- A message carrying the reserved confirmation marker header. -/
def msgConf : EmailMsg :=
  ⟨"carol@example.com", "anything at all", "", "", "Confirmation", none,
   "Wed, 3 Jan", .ok "t30g 120kg bench", .ok [⟨"v.mp4", "video/mp4", 5⟩]⟩

/-- A self-sent message whose subject carries a confirmation marker. -/
def msgSelfMarked : EmailMsg :=
  ⟨"Gym.Uploads@example.com", "✅ Tom's Gym - Video Uploaded Successfully",
   "", "", "", none, "Thu, 4 Jan", .ok "your video is up", .ok []⟩

/-- A self-sent message without confirmation markers (a legitimate
self-forward). -/
def msgSelfPlain : EmailMsg :=
  ⟨"gym.uploads@example.com", "my own lift", "", "", "", none, "Fri, 5 Jan",
   .ok "t30g 90kg squat", .ok [⟨"v.mp4", "video/mp4", 5⟩]⟩

/-- Collaborators with no active competition. -/
def envNoComp : AttemptEnv :=
  ⟨none, false, 100, 200, "newidB", none,
   fun _ => none, fun _ => some "userA", some "uc1",
   .ok ⟨"att1", "http://videos/att1"⟩⟩

/-- Collaborators in the user-creation race: the lookup finds nothing and
`create_user_from_email` swallows the uniqueness violation of the
concurrent creator, returning `None`. -/
def envRace : AttemptEnv :=
  ⟨none, false, 100, 200, "newidC", some ("comp1", "Squat"),
   fun _ => none, fun _ => none, none,
   .ok ⟨"att1", "http://videos/att1"⟩⟩

/-- Default `ProcessResult` used with `List.getD`. -/
def dpr : ProcessResult := ⟨.ok (true, ""), .skipHeader, [], []⟩

/-! # Theorems -/

/-! ## C5: fingerprint determinism and truncation -/

/-- **C5.** The fingerprint function is deterministic and pure: identical
`(sender, subject, date, body)` inputs always yield identical hashes, and
any two inputs agreeing on sender, subject, date and the first 500
characters of the body (the truncation bound of `body[:500]`) yield equal
fingerprints. -/
theorem c5_fingerprint_deterministic :
    (∀ f s d b, computeEmailFingerprint f s d b = computeEmailFingerprint f s d b) ∧
    (∀ f s d b₁ b₂, b₁.data.take 500 = b₂.data.take 500 →
      computeEmailFingerprint f s d b₁ = computeEmailFingerprint f s d b₂) := by
  refine ⟨fun _ _ _ _ => rfl, fun f s d b₁ b₂ h => ?_⟩
  unfold computeEmailFingerprint
  rw [h]

/-- Witness for C5: two bodies of length 501 that differ only in their last
character collide. -/
theorem c5_fingerprint_deterministic_witness :
    computeEmailFingerprint "a@b.c" "subj" "date"
        (String.mk (List.replicate 501 'a')) =
      computeEmailFingerprint "a@b.c" "subj" "date"
        (String.mk (List.replicate 500 'a' ++ ['b'])) :=
  c5_fingerprint_deterministic.2 "a@b.c" "subj" "date" _ _ (by
    show (List.replicate 501 'a').take 500 = (List.replicate 500 'a' ++ ['b']).take 500
    rw [List.take_replicate, List.take_left' (by rw [List.length_replicate])]
    rw [Nat.min_def]
    norm_num)

/-! ## C6: the tag parser table -/

/-- The mandatory number group fails exactly at a non-digit head. -/
theorem matchNumber_eq_none (s : List Char) (h : headIsDigit s = false) :
    matchNumber s = none := by
  cases s with
  | nil => rfl
  | cons d tl =>
    have hd : isDigitChar d = false := h
    unfold matchNumber
    simp [List.takeWhile_cons, hd]

/-- If the head of `s` carries no `t30g` directive, the regex cannot match
there. -/
theorem matchT30gAt_eq_none (s : List Char)
    (h : hasT30gDirective.directiveHead s = false) : matchT30gAt s = none := by
  unfold hasT30gDirective.directiveHead at h
  unfold matchT30gAt
  cases hd : dropLitCI ['t', '3', '0', 'g'] s with
  | none => rfl
  | some rest =>
    simp only [hd] at h ⊢
    cases hsp : (rest.takeWhile isSpaceChar).isEmpty with
    | true => simp [hsp]
    | false =>
      simp only [hsp, Bool.not_false, Bool.true_and] at h
      simp [hsp, matchNumber_eq_none _ h]

/-- A text without the directive cannot produce a regex match anywhere. -/
theorem regexSearch_t30g_eq_none (cs : List Char)
    (h : hasT30gDirective cs = false) : regexSearch matchT30gAt cs = none := by
  induction cs with
  | nil => rfl
  | cons c rest ih =>
    unfold hasT30gDirective at h
    rcases Bool.or_eq_false_iff.mp h with ⟨h1, h2⟩
    unfold regexSearch
    rw [matchT30gAt_eq_none _ h1]
    exact ih h2

/-- Evaluation shape of `parse_t30g_message` once the regex search result
is known. -/
theorem parse_t30g_eval (text : String) (g1 : List Char) (u l : Option String)
    (h : regexSearch matchT30gAt text.data = some (g1, u, l)) :
    parse_t30g_message text =
      some ⟨if parse_t30g_message.strToLbs (strLower (u.getD "kg"))
              then round2 (pyFloatOfDigits g1 * (453592 / 1000000 : ℚ))
              else pyFloatOfDigits g1,
            aliasLookup (strLower (l.getD "snatch")), text⟩ := by
  unfold parse_t30g_message
  rw [h]

/-- **C6.** The tag parser satisfies the spec table: `"t30g 185kg Squat"`
parses to 185 kg Squat; `"t30g 315lbs Deadlift"` parses to 142.88 kg
Deadlift (pounds converted via the fixed constant 0.453592 and rounded to 2
decimals); `"t30g 100"` parses to 100 kg with the default lift `Snatch`;
and any text in which the directive is absent parses to `none`. -/
theorem c6_parser_table :
    parse_t30g_message "t30g 185kg Squat" =
      some ⟨185, "Squat", "t30g 185kg Squat"⟩ ∧
    parse_t30g_message "t30g 315lbs Deadlift" =
      some ⟨142.88, "Deadlift", "t30g 315lbs Deadlift"⟩ ∧
    parse_t30g_message "t30g 100" = some ⟨100, "Snatch", "t30g 100"⟩ ∧
    (∀ t : String, hasT30gDirective t.data = false →
      parse_t30g_message t = none) := by
  refine ⟨?_, ?_, ?_, fun t h => ?_⟩
  · rw [parse_t30g_eval _ ['1', '8', '5'] (some "kg") (some "Squat") (by decide)]
    simp only [Option.getD_some, Option.getD_none,
      show parse_t30g_message.strToLbs (strLower "kg") = false from by decide,
      Bool.false_eq_true, if_false,
      show aliasLookup (strLower "Squat") = "Squat" from by decide,
      show pyFloatOfDigits ['1', '8', '5'] = ((185 : ℕ) : ℚ) from rfl]
    norm_num
  · rw [parse_t30g_eval _ ['3', '1', '5'] (some "lbs") (some "Deadlift") (by decide)]
    simp only [Option.getD_some, Option.getD_none,
      show parse_t30g_message.strToLbs (strLower "lbs") = true from by decide,
      if_true,
      show aliasLookup (strLower "Deadlift") = "Deadlift" from by decide,
      show pyFloatOfDigits ['3', '1', '5'] = ((315 : ℕ) : ℚ) from rfl]
    have h288 : round2 (((315 : ℕ) : ℚ) * (453592 / 1000000 : ℚ)) = 142.88 := by
      unfold round2
      norm_num
    rw [h288]
  · rw [parse_t30g_eval _ ['1', '0', '0'] none none (by decide)]
    simp only [Option.getD_some, Option.getD_none,
      show parse_t30g_message.strToLbs (strLower "kg") = false from by decide,
      Bool.false_eq_true, if_false,
      show aliasLookup (strLower "snatch") = "Snatch" from by decide,
      show pyFloatOfDigits ['1', '0', '0'] = ((100 : ℕ) : ℚ) from rfl]
    norm_num
  · unfold parse_t30g_message
    rw [regexSearch_t30g_eq_none t.data h]

/-- Witness for C6: `"no tag here"` carries no directive and parses to
`none`. -/
theorem c6_parser_table_witness : parse_t30g_message "no tag here" = none :=
  c6_parser_table.2.2.2 "no tag here" (by decide)

/-! ## C1: the reservation case analysis -/

/-- **C1.** `_reserve_email_processing`, on a fault-free store run: if no
row carries the fingerprint (and the INSERT does not trip the `message_id`
UNIQUE constraint), a fresh `processing` row is inserted and
`(True, new_id)` returned; if the existing row is `succeeded`,
`(False, existing_id)` is returned with the ledger unchanged; if it is
`processing` and younger than the dedupe window, `(False, existing_id)`
with the ledger unchanged; otherwise (`failed`, or `processing` at least
the window old) the row is flipped back to `processing` with the error
cleared and `updated_at` bumped, and `(True, existing_id)` returned. -/
theorem c1_reserve_cases (window now : Int) (mid : Option String)
    (fp newId : String) (L : Ledger) :
    (findByFp L fp = none → msgidTaken L mid = false →
      reserveRun none window now mid fp newId L =
        ((true, some newId),
         L ++ [⟨newId, mid, fp, .processing, none, now, now⟩])) ∧
    (∀ r, findByFp L fp = some r → r.status = .succeeded →
      reserveRun none window now mid fp newId L = ((false, some r.id), L)) ∧
    (∀ r, findByFp L fp = some r → r.status = .processing →
      now - r.updated_at < window * 60 →
      reserveRun none window now mid fp newId L = ((false, some r.id), L)) ∧
    (∀ r, findByFp L fp = some r →
      (r.status = .failed ∨
        (r.status = .processing ∧ window * 60 ≤ now - r.updated_at)) →
      reserveRun none window now mid fp newId L =
        ((true, some r.id), flipToProcessing r.id now L)) := by
  refine ⟨fun hf hm => ?_, fun r hf hs => ?_, fun r hf hs hy => ?_,
          fun r hf hcase => ?_⟩
  · simp [reserveRun, hf, hm]
  · simp [reserveRun, hf, hs]
  · simp [reserveRun, hf, hs, hy]
  · rcases hcase with hfl | ⟨hp, hold⟩
    · have h1 : ¬r.status = EmailStatus.succeeded := by rw [hfl]; simp
      have h2 : ¬(r.status = EmailStatus.processing ∧
          now - r.updated_at < window * 60) := by rw [hfl]; simp
      simp [reserveRun, hf, h1, h2]
    · have h1 : ¬r.status = EmailStatus.succeeded := by rw [hp]; simp
      have h2 : ¬(r.status = EmailStatus.processing ∧
          now - r.updated_at < window * 60) := by
        rintro ⟨-, hlt⟩
        omega
      simp [reserveRun, hf, h1, h2]

/-- Witness for C1: exercises the fresh-fingerprint conjunct on the empty
ledger. -/
theorem c1_reserve_cases_witness :
    reserveRun none 30 0 none "fp0" "id0" [] =
      ((true, some "id0"),
       [⟨"id0", none, "fp0", .processing, none, 0, 0⟩]) :=
  (c1_reserve_cases 30 0 none "fp0" "id0" []).1 (by decide) (by decide)

/-! ## Ledger lemmas -/

theorem findByFp_append (L1 L2 : Ledger) (fp : String) :
    findByFp (L1 ++ L2) fp =
      match findByFp L1 fp with
      | some r => some r
      | none => findByFp L2 fp := by
  induction L1 with
  | nil => simp [findByFp]
  | cons r rs ih =>
    by_cases h : r.fingerprint = fp
    · simp [findByFp, h]
    · simp [findByFp, h, ih]

theorem findByFp_mem {L : Ledger} {fp : String} {r : EmailRec}
    (h : findByFp L fp = some r) : r ∈ L ∧ r.fingerprint = fp := by
  induction L with
  | nil => simp [findByFp] at h
  | cons x xs ih =>
    by_cases hx : x.fingerprint = fp
    · simp [findByFp, hx] at h
      subst h
      exact ⟨List.mem_cons_self _ _, hx⟩
    · simp [findByFp, hx] at h
      obtain ⟨hm, hf⟩ := ih h
      exact ⟨List.mem_cons_of_mem _ hm, hf⟩

theorem findByFp_map {g : EmailRec → EmailRec}
    (hg : ∀ x, (g x).fingerprint = x.fingerprint) (L : Ledger) (fp : String) :
    findByFp (L.map g) fp = (findByFp L fp).map g := by
  induction L with
  | nil => simp [findByFp]
  | cons x xs ih =>
    by_cases hx : x.fingerprint = fp
    · simp [findByFp, hg, hx]
    · simp [findByFp, hg, hx, ih]

theorem fpTaken_map {g : EmailRec → EmailRec}
    (hg : ∀ x, (g x).fingerprint = x.fingerprint) (L : Ledger) (fp : String) :
    fpTaken (L.map g) fp = fpTaken L fp := by
  unfold fpTaken
  rw [findByFp_map hg]
  cases findByFp L fp <;> simp

theorem uniqueFp_map {g : EmailRec → EmailRec}
    (hg : ∀ x, (g x).fingerprint = x.fingerprint) {L : Ledger}
    (h : uniqueFp L) : uniqueFp (L.map g) := by
  induction L with
  | nil => trivial
  | cons x xs ih =>
    obtain ⟨h1, h2⟩ := h
    exact ⟨by rw [fpTaken_map hg, hg]; exact h1, ih h2⟩

theorem fpTaken_nil (fp : String) : fpTaken [] fp = false := rfl

theorem fpTaken_cons (x : EmailRec) (xs : Ledger) (fp : String) :
    fpTaken (x :: xs) fp = (decide (x.fingerprint = fp) || fpTaken xs fp) := by
  unfold fpTaken
  by_cases h : x.fingerprint = fp <;> simp [findByFp, h]

theorem fpTaken_append (L1 L2 : Ledger) (fp : String) :
    fpTaken (L1 ++ L2) fp = (fpTaken L1 fp || fpTaken L2 fp) := by
  unfold fpTaken
  rw [findByFp_append]
  cases findByFp L1 fp <;> simp

theorem uniqueFp_append_singleton {L : Ledger} {rec : EmailRec}
    (h : uniqueFp L) (hf : fpTaken L rec.fingerprint = false) :
    uniqueFp (L ++ [rec]) := by
  induction L with
  | nil => exact ⟨rfl, trivial⟩
  | cons x xs ih =>
    obtain ⟨h1, h2⟩ := h
    rw [fpTaken_cons, Bool.or_eq_false_iff, decide_eq_false_iff_not] at hf
    refine ⟨?_, ih h2 hf.2⟩
    show fpTaken (xs ++ [rec]) x.fingerprint = false
    rw [fpTaken_append, h1, fpTaken_cons, fpTaken_nil]
    simp [Ne.symm hf.1]

theorem idTaken_map {g : EmailRec → EmailRec}
    (hg : ∀ x, (g x).id = x.id) (L : Ledger) (i : String) :
    idTaken (L.map g) i = idTaken L i := by
  unfold idTaken
  rw [List.any_map]
  congr 1
  funext x
  simp [hg]

theorem uniqueId_map {g : EmailRec → EmailRec}
    (hg : ∀ x, (g x).id = x.id) {L : Ledger}
    (h : uniqueId L) : uniqueId (L.map g) := by
  induction L with
  | nil => trivial
  | cons x xs ih =>
    obtain ⟨h1, h2⟩ := h
    exact ⟨by rw [idTaken_map hg, hg]; exact h1, ih h2⟩

theorem idTaken_append (L1 L2 : Ledger) (i : String) :
    idTaken (L1 ++ L2) i = (idTaken L1 i || idTaken L2 i) := by
  unfold idTaken
  rw [List.any_append]

theorem idTaken_nil (i : String) : idTaken [] i = false := rfl

theorem idTaken_cons (x : EmailRec) (xs : Ledger) (i : String) :
    idTaken (x :: xs) i = ((x.id == i) || idTaken xs i) := by
  unfold idTaken
  rw [List.any_cons]

theorem uniqueId_append_singleton {L : Ledger} {rec : EmailRec}
    (h : uniqueId L) (hf : idTaken L rec.id = false) :
    uniqueId (L ++ [rec]) := by
  induction L with
  | nil => exact ⟨rfl, trivial⟩
  | cons x xs ih =>
    obtain ⟨h1, h2⟩ := h
    rw [idTaken_cons, Bool.or_eq_false_iff] at hf
    refine ⟨?_, ih h2 hf.2⟩
    show idTaken (xs ++ [rec]) x.id = false
    rw [idTaken_append, h1, idTaken_cons, idTaken_nil]
    have hne : rec.id ≠ x.id := by
      intro hx
      have := hf.1
      rw [hx] at this
      simp at this
    simp [hne]

theorem not_idTaken_ne {L : Ledger} {i : String} {r : EmailRec}
    (h : idTaken L i = false) (hm : r ∈ L) : r.id ≠ i := by
  unfold idTaken at h
  rw [List.any_eq_false] at h
  have := h r hm
  simpa using this

theorem uniqueId_mem_eq {L : Ledger} {a b : EmailRec} (h : uniqueId L)
    (ha : a ∈ L) (hb : b ∈ L) (hid : a.id = b.id) : a = b := by
  induction L with
  | nil => cases ha
  | cons x xs ih =>
    obtain ⟨h1, h2⟩ := h
    rcases List.mem_cons.mp ha with rfl | ha' <;>
      rcases List.mem_cons.mp hb with rfl | hb'
    · rfl
    · exact absurd (hid ▸ rfl) (Ne.symm (not_idTaken_ne h1 hb'))
    · exact absurd hid (not_idTaken_ne h1 ha')
    · exact ih h2 ha' hb'

/-! ## Reservation / finalize invariant lemmas -/

theorem uniqueFp_reserve (f : Option FaultPt) (w n : Int) (mid : Option String)
    (fp nid : String) {L : Ledger} (h : uniqueFp L) :
    uniqueFp (reserveRun f w n mid fp nid L).2 := by
  unfold reserveRun
  split
  · exact h
  split
  · exact h
  split
  · rename_i hf
    split
    · exact h
    · exact uniqueFp_append_singleton h (by unfold fpTaken; rw [hf]; rfl)
  · split
    · exact h
    split
    · exact h
    split
    · exact h
    split
    · exact h
    · unfold flipToProcessing
      exact uniqueFp_map (fun x => by split <;> rfl) h

theorem uniqueId_reserve (f : Option FaultPt) (w n : Int) (mid : Option String)
    (fp nid : String) {L : Ledger} (h : uniqueId L)
    (hfresh : idTaken L nid = false) :
    uniqueId (reserveRun f w n mid fp nid L).2 := by
  unfold reserveRun
  split
  · exact h
  split
  · exact h
  split
  · split
    · exact h
    · exact uniqueId_append_singleton h hfresh
  · split
    · exact h
    split
    · exact h
    split
    · exact h
    split
    · exact h
    · unfold flipToProcessing
      exact uniqueId_map (fun x => by split <;> rfl) h

theorem uniqueFp_finalize (fault : Bool) (rid : Option String)
    (st : EmailStatus) (er : Option String) (t : Int) {L : Ledger}
    (h : uniqueFp L) : uniqueFp (finalizeRun fault rid st er t L) := by
  unfold finalizeRun
  split
  · exact h
  split
  · exact h
  · exact uniqueFp_map (fun x => by split <;> rfl) h

theorem uniqueId_finalize (fault : Bool) (rid : Option String)
    (st : EmailStatus) (er : Option String) (t : Int) {L : Ledger}
    (h : uniqueId L) : uniqueId (finalizeRun fault rid st er t L) := by
  unfold finalizeRun
  split
  · exact h
  split
  · exact h
  · exact uniqueId_map (fun x => by split <;> rfl) h

/-- Finalizing a record id different from `r.id` leaves `r` untouched. -/
theorem finalize_stable (fault : Bool) (rid : Option String)
    (st : EmailStatus) (er : Option String) (t : Int) {L : Ledger}
    {fp0 : String} {r : EmailRec} (hr : findByFp L fp0 = some r)
    (hi : ∀ i, rid = some i → i ≠ r.id) :
    findByFp (finalizeRun fault rid st er t L) fp0 = some r := by
  unfold finalizeRun
  split
  · exact hr
  split
  · exact hr
  · rename_i i _
    rw [findByFp_map (fun x => by split <;> rfl), hr]
    have : ¬r.id = i := fun hx => (hi i rfl) (hx.symm)
    simp [this]

/-- A reservation leaves a `succeeded` row exactly as it was, never
returns `should_process=true` for its fingerprint, and any record id it
does hand out is a different row's. -/
theorem reserve_stable (f : Option FaultPt) (w n : Int) (mid : Option String)
    (fp nid : String) {L : Ledger} {fp0 : String} {r : EmailRec}
    (hidU : uniqueId L) (hfresh : idTaken L nid = false)
    (hr : findByFp L fp0 = some r) (hs : r.status = .succeeded) :
    findByFp (reserveRun f w n mid fp nid L).2 fp0 = some r ∧
    ((reserveRun f w n mid fp nid L).1.1 = true →
      fp ≠ fp0 ∧ ∃ i, (reserveRun f w n mid fp nid L).1.2 = some i ∧ i ≠ r.id) := by
  unfold reserveRun
  split
  · exact ⟨hr, by simp⟩
  split
  · exact ⟨hr, by simp⟩
  split
  · rename_i hf
    split
    · exact ⟨hr, by simp⟩
    · refine ⟨?_, fun _ => ⟨?_, nid, rfl, ?_⟩⟩
      · rw [findByFp_append, hr]
      · intro hfp
        rw [hfp, hr] at hf
        cases hf
      · exact Ne.symm (not_idTaken_ne hfresh (findByFp_mem hr).1)
  · rename_i r2 hf2
    split
    · exact ⟨hr, by simp⟩
    split
    · exact ⟨hr, by simp⟩
    split
    · exact ⟨hr, by simp⟩
    split
    · exact ⟨hr, by simp⟩
    · rename_i hnotsucc hnotyoung _
      have hne : fp ≠ fp0 := by
        intro hfp
        rw [hfp, hr] at hf2
        cases hf2
        exact hnotsucc hs
      have hr2ne : r2.id ≠ r.id := by
        intro hid
        have : r2 = r :=
          uniqueId_mem_eq hidU (findByFp_mem hf2).1 (findByFp_mem hr).1 hid
        rw [this] at hnotsucc
        exact hnotsucc hs
      refine ⟨?_, fun _ => ⟨hne, r2.id, rfl, hr2ne⟩⟩
      unfold flipToProcessing
      rw [findByFp_map (fun x => by split <;> rfl), hr]
      have : ¬r.id = r2.id := fun hx => hr2ne hx.symm
      simp [this]

/-! ## Orchestrator-level invariant lemmas -/

theorem reservesOf_append (a b : List EmailEffect) :
    reservesOf (a ++ b) = reservesOf a ++ reservesOf b := by
  unfold reservesOf
  exact List.filterMap_append _ _ _

theorem uploadStep_wf_fp (env : AttemptEnv) (fw c : String) (m : ParsedTag)
    (uid : String) (effs : List EmailEffect) (rid : Option String)
    {L1 : Ledger} (h : uniqueFp L1) :
    uniqueFp (uploadStep env fw c m uid effs rid L1).ledger := by
  unfold uploadStep
  split
  · exact uniqueFp_finalize _ _ _ _ _ h
  · exact uniqueFp_finalize _ _ _ _ _ h

theorem uploadStep_wf_id (env : AttemptEnv) (fw c : String) (m : ParsedTag)
    (uid : String) (effs : List EmailEffect) (rid : Option String)
    {L1 : Ledger} (h : uniqueId L1) :
    uniqueId (uploadStep env fw c m uid effs rid L1).ledger := by
  unfold uploadStep
  split
  · exact uniqueId_finalize _ _ _ _ _ h
  · exact uniqueId_finalize _ _ _ _ _ h

theorem uploadStep_stable (env : AttemptEnv) (fw c : String) (m : ParsedTag)
    (uid : String) (effs : List EmailEffect) (rid : Option String)
    {L1 : Ledger} {fp0 : String} {r : EmailRec}
    (hr : findByFp L1 fp0 = some r) (hi : ∀ i, rid = some i → i ≠ r.id) :
    findByFp (uploadStep env fw c m uid effs rid L1).ledger fp0 = some r ∧
    reservesOf (uploadStep env fw c m uid effs rid L1).effects =
      reservesOf effs := by
  unfold uploadStep
  split
  · exact ⟨finalize_stable _ _ _ _ _ hr hi,
      by simp [reservesOf_append, reservesOf]⟩
  · exact ⟨finalize_stable _ _ _ _ _ hr hi,
      by simp [reservesOf_append, reservesOf]⟩

theorem resolveAndUpload_wf_fp (env : AttemptEnv) (fw c : String)
    (m : ParsedTag) (ue : String) (effs : List EmailEffect)
    (rid : Option String) {L1 : Ledger} (h : uniqueFp L1) :
    uniqueFp (resolveAndUpload env fw c m ue effs rid L1).ledger := by
  simp only [resolveAndUpload]
  split
  · exact uploadStep_wf_fp _ _ _ _ _ _ _ h
  split
  · exact uploadStep_wf_fp _ _ _ _ _ _ _ h
  split
  · exact uploadStep_wf_fp _ _ _ _ _ _ _ h
  split
  · exact uploadStep_wf_fp _ _ _ _ _ _ _ h
  · exact h

theorem resolveAndUpload_wf_id (env : AttemptEnv) (fw c : String)
    (m : ParsedTag) (ue : String) (effs : List EmailEffect)
    (rid : Option String) {L1 : Ledger} (h : uniqueId L1) :
    uniqueId (resolveAndUpload env fw c m ue effs rid L1).ledger := by
  simp only [resolveAndUpload]
  split
  · exact uploadStep_wf_id _ _ _ _ _ _ _ h
  split
  · exact uploadStep_wf_id _ _ _ _ _ _ _ h
  split
  · exact uploadStep_wf_id _ _ _ _ _ _ _ h
  split
  · exact uploadStep_wf_id _ _ _ _ _ _ _ h
  · exact h

theorem resolveAndUpload_stable (env : AttemptEnv) (fw c : String)
    (m : ParsedTag) (ue : String) (effs : List EmailEffect)
    (rid : Option String) {L1 : Ledger} {fp0 : String} {r : EmailRec}
    (hr : findByFp L1 fp0 = some r) (hi : ∀ i, rid = some i → i ≠ r.id) :
    findByFp (resolveAndUpload env fw c m ue effs rid L1).ledger fp0 = some r ∧
    reservesOf (resolveAndUpload env fw c m ue effs rid L1).effects =
      reservesOf effs := by
  simp only [resolveAndUpload]
  split
  · rw [(uploadStep_stable env fw c m _ _ rid hr hi).1,
        (uploadStep_stable env fw c m _ _ rid hr hi).2]
    simp [reservesOf_append, reservesOf]
  split
  · rw [(uploadStep_stable env fw c m _ _ rid hr hi).1,
        (uploadStep_stable env fw c m _ _ rid hr hi).2]
    simp [reservesOf_append, reservesOf]
  split
  · rw [(uploadStep_stable env fw c m _ _ rid hr hi).1,
        (uploadStep_stable env fw c m _ _ rid hr hi).2]
    simp [reservesOf_append, reservesOf]
  split
  · rw [(uploadStep_stable env fw c m _ _ rid hr hi).1,
        (uploadStep_stable env fw c m _ _ rid hr hi).2]
    simp [reservesOf_append, reservesOf]
  · exact ⟨hr, by simp [reservesOf_append, reservesOf]⟩

theorem afterGuard_wf_fp (cfg : EmailConfig) (env : AttemptEnv)
    (msg : EmailMsg) (fw sub bd : String) {L : Ledger} (h : uniqueFp L) :
    uniqueFp (processEmailAfterGuard cfg env msg fw sub bd L).ledger := by
  have hres := uniqueFp_reserve env.reserveFault cfg.dedupeWindowMinutes
    env.now msg.messageId (computeEmailFingerprint fw sub msg.dateHeader bd)
    env.newRecordId h
  simp only [processEmailAfterGuard]
  split
  · exact hres
  split
  · exact hres
  split
  · exact hres
  split
  · exact uniqueFp_finalize _ _ _ _ _ hres
  · exact resolveAndUpload_wf_fp _ _ _ _ _ _ _ hres

theorem afterGuard_wf_id (cfg : EmailConfig) (env : AttemptEnv)
    (msg : EmailMsg) (fw sub bd : String) {L : Ledger} (h : uniqueId L)
    (hfresh : idTaken L env.newRecordId = false) :
    uniqueId (processEmailAfterGuard cfg env msg fw sub bd L).ledger := by
  have hres := uniqueId_reserve env.reserveFault cfg.dedupeWindowMinutes
    env.now msg.messageId (computeEmailFingerprint fw sub msg.dateHeader bd)
    env.newRecordId h hfresh
  simp only [processEmailAfterGuard]
  split
  · exact hres
  split
  · exact hres
  split
  · exact hres
  split
  · exact uniqueId_finalize _ _ _ _ _ hres
  · exact resolveAndUpload_wf_id _ _ _ _ _ _ _ hres

theorem processEmail_wf_fp (cfg : EmailConfig) (env : AttemptEnv)
    (msg : EmailMsg) {L : Ledger} (h : uniqueFp L) :
    uniqueFp (processEmail cfg env msg L).ledger := by
  simp only [processEmail]
  split
  · exact h
  split
  · exact h
  split
  · exact h
  split
  · exact h
  split
  · exact h
  · exact afterGuard_wf_fp _ _ _ _ _ _ h

theorem processEmail_wf_id (cfg : EmailConfig) (env : AttemptEnv)
    (msg : EmailMsg) {L : Ledger} (h : uniqueId L)
    (hfresh : idTaken L env.newRecordId = false) :
    uniqueId (processEmail cfg env msg L).ledger := by
  simp only [processEmail]
  split
  · exact h
  split
  · exact h
  split
  · exact h
  split
  · exact h
  split
  · exact h
  · exact afterGuard_wf_id _ _ _ _ _ _ h hfresh

theorem afterGuard_stable (cfg : EmailConfig) (env : AttemptEnv)
    (msg : EmailMsg) (fw sub bd : String) {L : Ledger} {fp0 : String}
    {r : EmailRec} (hidU : uniqueId L)
    (hfresh : idTaken L env.newRecordId = false)
    (hr : findByFp L fp0 = some r) (hs : r.status = .succeeded) :
    findByFp (processEmailAfterGuard cfg env msg fw sub bd L).ledger fp0 = some r ∧
    (fp0, true) ∉
      reservesOf (processEmailAfterGuard cfg env msg fw sub bd L).effects := by
  obtain ⟨h1, h2⟩ := reserve_stable env.reserveFault cfg.dedupeWindowMinutes
    env.now msg.messageId (computeEmailFingerprint fw sub msg.dateHeader bd)
    env.newRecordId hidU hfresh hr hs
  simp only [processEmailAfterGuard]
  split
  · rename_i hb
    refine ⟨h1, ?_⟩
    rw [hb]
    simp [reservesOf]
  · rename_i hb
    have hb' : (reserveRun env.reserveFault cfg.dedupeWindowMinutes env.now
        msg.messageId (computeEmailFingerprint fw sub msg.dateHeader bd)
        env.newRecordId L).1.1 = true := by
      revert hb
      cases (reserveRun env.reserveFault cfg.dedupeWindowMinutes env.now
        msg.messageId (computeEmailFingerprint fw sub msg.dateHeader bd)
        env.newRecordId L).1.1 <;> simp
    obtain ⟨hfpne, i, hi, hine⟩ := h2 hb'
    have hnotmem : (fp0, true) ∉
        reservesOf [EmailEffect.reserveCall
          (computeEmailFingerprint fw sub msg.dateHeader bd)
          (reserveRun env.reserveFault cfg.dedupeWindowMinutes env.now
            msg.messageId (computeEmailFingerprint fw sub msg.dateHeader bd)
            env.newRecordId L).1.1] := by
      simp only [reservesOf, List.filterMap]
      intro hmem
      rw [List.mem_singleton] at hmem
      exact hfpne ((Prod.ext_iff.mp hmem.symm).1)
    have hisafe : ∀ j, (reserveRun env.reserveFault cfg.dedupeWindowMinutes
        env.now msg.messageId
        (computeEmailFingerprint fw sub msg.dateHeader bd)
        env.newRecordId L).1.2 = some j → j ≠ r.id := by
      intro j hj
      rw [hi] at hj
      cases hj
      exact hine
    split
    · refine ⟨h1, ?_⟩
      rw [reservesOf_append]
      intro hmem
      rcases List.mem_append.mp hmem with hm | hm
      · exact hnotmem hm
      · simp [reservesOf] at hm
    split
    · exact ⟨h1, hnotmem⟩
    split
    · refine ⟨finalize_stable _ _ _ _ _ h1 hisafe, ?_⟩
      rw [reservesOf_append]
      intro hmem
      rcases List.mem_append.mp hmem with hm | hm
      · exact hnotmem hm
      · simp [reservesOf] at hm
    · obtain ⟨hst1, hst2⟩ := resolveAndUpload_stable env fw _ _ _ _ _ h1 hisafe
      refine ⟨hst1, ?_⟩
      rw [hst2]
      exact hnotmem

theorem processEmail_stable (cfg : EmailConfig) (env : AttemptEnv)
    (msg : EmailMsg) {L : Ledger} {fp0 : String} {r : EmailRec}
    (hidU : uniqueId L) (hfresh : idTaken L env.newRecordId = false)
    (hr : findByFp L fp0 = some r) (hs : r.status = .succeeded) :
    findByFp (processEmail cfg env msg L).ledger fp0 = some r ∧
    (fp0, true) ∉ reservesOf (processEmail cfg env msg L).effects := by
  simp only [processEmail]
  split
  · exact ⟨hr, by simp [reservesOf]⟩
  split
  · exact ⟨hr, by simp [reservesOf]⟩
  split
  · exact ⟨hr, by simp [reservesOf]⟩
  split
  · exact ⟨hr, by simp [reservesOf]⟩
  split
  · exact ⟨hr, by simp [reservesOf]⟩
  · exact afterGuard_stable _ _ _ _ _ _ hidU hfresh hr hs

/-! ## C2: the ledger invariant -/

theorem checkInbox_cons (cfg : EmailConfig) (me : EmailMsg × AttemptEnv)
    (rest : List (EmailMsg × AttemptEnv)) (L : Ledger) :
    (checkInbox cfg (me :: rest) L).perMessage =
      processEmail cfg me.2 me.1 L ::
        (checkInbox cfg rest (processEmail cfg me.2 me.1 L).ledger).perMessage ∧
    (checkInbox cfg (me :: rest) L).ledger =
      (checkInbox cfg rest (processEmail cfg me.2 me.1 L).ledger).ledger := by
  simp only [checkInbox]
  split <;> exact ⟨rfl, rfl⟩

/-- **C2.** Every operation of the pipeline preserves the ledger
invariant: across any poll batch (with fresh `uuid4` record ids), the
ledger keeps at most one row per fingerprint (and per id), and a
fingerprint whose row has reached `succeeded` keeps that row unchanged —
in particular no reservation made anywhere in the batch returns
`should_process=true` for it, so the message is never reprocessed. -/
theorem c2_ledger_invariant (cfg : EmailConfig)
    (batch : List (EmailMsg × AttemptEnv)) (L : Ledger)
    (hfp : uniqueFp L) (hid : uniqueId L)
    (hfresh : freshIdsBatch cfg batch L) :
    uniqueFp (checkInbox cfg batch L).ledger ∧
    uniqueId (checkInbox cfg batch L).ledger ∧
    (∀ fp0 r, findByFp L fp0 = some r → r.status = .succeeded →
      findByFp (checkInbox cfg batch L).ledger fp0 = some r ∧
      (fp0, true) ∉ reservesOf (tickEffects (checkInbox cfg batch L))) := by
  induction batch generalizing L with
  | nil =>
    refine ⟨hfp, hid, fun fp0 r hr hs => ⟨hr, ?_⟩⟩
    simp [tickEffects, checkInbox, reservesOf]
  | cons me rest ih =>
    obtain ⟨hfr1, hfr2⟩ := hfresh
    have hpm := checkInbox_cons cfg me rest L
    have hfp' := processEmail_wf_fp cfg me.2 me.1 hfp
    have hid' := processEmail_wf_id cfg me.2 me.1 hid hfr1
    obtain ⟨ih1, ih2, ih3⟩ :=
      ih (processEmail cfg me.2 me.1 L).ledger hfp' hid' hfr2
    rw [hpm.2]
    refine ⟨ih1, ih2, fun fp0 r hr hs => ?_⟩
    obtain ⟨hstab1, hstab2⟩ := processEmail_stable cfg me.2 me.1 hid hfr1 hr hs
    obtain ⟨hih1, hih2⟩ := ih3 fp0 r hstab1 hs
    refine ⟨hih1, ?_⟩
    have hte : tickEffects (checkInbox cfg (me :: rest) L) =
        (processEmail cfg me.2 me.1 L).effects ++
          tickEffects (checkInbox cfg rest (processEmail cfg me.2 me.1 L).ledger) := by
      unfold tickEffects
      rw [hpm.1]
      simp
    rw [hte, reservesOf_append]
    intro hmem
    rcases List.mem_append.mp hmem with hm | hm
    · exact hstab2 hm
    · exact hih2 hm

/-- Witness for C2: a one-message batch run against a ledger holding a
`succeeded` row leaves that row unchanged and makes no `should_process=true`
reservation for its fingerprint. -/
theorem c2_ledger_invariant_witness :
    findByFp (checkInbox cfgA [(msgA, envA)] ledgerS).ledger "fpS" = some recS ∧
    ("fpS", true) ∉ reservesOf (tickEffects (checkInbox cfgA [(msgA, envA)] ledgerS)) :=
  (c2_ledger_invariant cfgA [(msgA, envA)] ledgerS (by decide) (by decide)
      ⟨by decide, trivial⟩).2.2 "fpS" recS (by decide) (by decide)

/-! ## C4: the loop / self-mail guard -/

theorem uploadStep_not_guardSkip (env : AttemptEnv) (fw c : String)
    (m : ParsedTag) (uid : String) (effs : List EmailEffect)
    (rid : Option String) (L1 : Ledger) :
    ¬ guardSkipped (uploadStep env fw c m uid effs rid L1) := by
  unfold guardSkipped uploadStep
  split <;> simp

theorem resolveAndUpload_not_guardSkip (env : AttemptEnv) (fw c : String)
    (m : ParsedTag) (ue : String) (effs : List EmailEffect)
    (rid : Option String) (L1 : Ledger) :
    ¬ guardSkipped (resolveAndUpload env fw c m ue effs rid L1) := by
  simp only [resolveAndUpload]
  split
  · exact uploadStep_not_guardSkip _ _ _ _ _ _ _ _
  split
  · exact uploadStep_not_guardSkip _ _ _ _ _ _ _ _
  split
  · exact uploadStep_not_guardSkip _ _ _ _ _ _ _ _
  split
  · exact uploadStep_not_guardSkip _ _ _ _ _ _ _ _
  · unfold guardSkipped
    simp

theorem afterGuard_not_guardSkip (cfg : EmailConfig) (env : AttemptEnv)
    (msg : EmailMsg) (fw sub bd : String) (L : Ledger) :
    ¬ guardSkipped (processEmailAfterGuard cfg env msg fw sub bd L) := by
  simp only [processEmailAfterGuard]
  split
  · unfold guardSkipped
    simp
  split
  · unfold guardSkipped
    simp
  split
  · unfold guardSkipped
    simp
  split
  · unfold guardSkipped
    simp
  · exact resolveAndUpload_not_guardSkip _ _ _ _ _ _ _ _

/-- **C4.** The loop guard: (i) a message bearing the reserved marker
header (`X-Toms-Gym-Email: confirmation`, case-insensitively) is skipped
outright — whatever its body, attachments or collaborators — with success
reported, no effects and the ledger untouched; (ii) a self-sent message
whose subject carries a confirmation marker is guard-skipped; (iii) a
self-sent message with benign automation headers and no subject marker is
not guard-skipped (processed normally); (iv) every guard skip is terminal
with a success outcome, no reservation claimed and no notification sent. -/
theorem c4_loop_guard :
    (∀ cfg env msg (L : Ledger), strLower msg.customHeader = "confirmation" →
      (processEmail cfg env msg L).outcome = .ok (true, "Skipped confirmation email") ∧
      (processEmail cfg env msg L).effects = [] ∧
      (processEmail cfg env msg L).ledger = L) ∧
    (∀ cfg env msg (L : Ledger),
      extract_email_address msg.fromHeader ≠ "" →
      strLower (extract_email_address msg.fromHeader) = strLower cfg.emailUsername →
      (containsSub confMarkerOk msg.subject.data ∨
       containsSub confMarkerFail msg.subject.data) →
      guardSkipped (processEmail cfg env msg L)) ∧
    (∀ cfg env msg (L : Ledger),
      strLower msg.customHeader ≠ "confirmation" →
      (strLower msg.autoSubmitted = "" ∨ strLower msg.autoSubmitted = "no") →
      strLower msg.precedence ≠ "auto_reply" →
      strLower msg.precedence ≠ "bulk" →
      strLower msg.precedence ≠ "junk" →
      strLower msg.precedence ≠ "list" →
      extract_email_address msg.fromHeader ≠ "" →
      strLower (extract_email_address msg.fromHeader) = strLower cfg.emailUsername →
      ¬ containsSub confMarkerOk msg.subject.data →
      ¬ containsSub confMarkerFail msg.subject.data →
      ¬ guardSkipped (processEmail cfg env msg L)) ∧
    (∀ cfg env msg (L : Ledger), guardSkipped (processEmail cfg env msg L) →
      (processEmail cfg env msg L).effects = [] ∧
      (processEmail cfg env msg L).ledger = L ∧
      ∃ m, (processEmail cfg env msg L).outcome = .ok (true, m)) := by
  refine ⟨fun cfg env msg L h => ?_, fun cfg env msg L hne hself hmark => ?_,
          fun cfg env msg L h1 h2 h3 h4 h5 h6 hne hself hm1 hm2 => ?_,
          fun cfg env msg L h => ?_⟩
  · simp [processEmail, if_pos h]
  · unfold guardSkipped
    simp only [processEmail]
    by_cases h1 : strLower msg.customHeader = "confirmation"
    · rw [if_pos h1]
      simp
    · rw [if_neg h1]
      by_cases h2 : ¬strLower msg.autoSubmitted = "" ∧ ¬strLower msg.autoSubmitted = "no"
      · rw [if_pos h2]
        simp
      · rw [if_neg h2]
        by_cases h3 : strLower msg.precedence = "auto_reply" ∨
            strLower msg.precedence = "bulk" ∨ strLower msg.precedence = "junk" ∨
            strLower msg.precedence = "list"
        · rw [if_pos h3]
          simp
        · rw [if_neg h3, if_pos ⟨hne, hself, hmark⟩]
          simp
  · simp only [processEmail, if_neg h1]
    have hauto : ¬(¬strLower msg.autoSubmitted = "" ∧
        ¬strLower msg.autoSubmitted = "no") := by
      rcases h2 with h | h
      · exact fun hc => hc.1 h
      · exact fun hc => hc.2 h
    rw [if_neg hauto]
    have hprec : ¬(strLower msg.precedence = "auto_reply" ∨
        strLower msg.precedence = "bulk" ∨ strLower msg.precedence = "junk" ∨
        strLower msg.precedence = "list") := by
      rintro (h | h | h | h)
      exacts [h3 h, h4 h, h5 h, h6 h]
    rw [if_neg hprec]
    have hmk : ¬(extract_email_address msg.fromHeader ≠ "" ∧
        strLower (extract_email_address msg.fromHeader) = strLower cfg.emailUsername ∧
        (containsSub confMarkerOk msg.subject.data ∨
         containsSub confMarkerFail msg.subject.data)) := by
      rintro ⟨-, -, hm | hm⟩
      exacts [hm1 hm, hm2 hm]
    rw [if_neg hmk]
    split
    · unfold guardSkipped
      simp
    · exact afterGuard_not_guardSkip _ _ _ _ _ _ _
  · revert h
    simp only [processEmail]
    split
    · exact fun _ => ⟨rfl, rfl, _, rfl⟩
    split
    · exact fun _ => ⟨rfl, rfl, _, rfl⟩
    split
    · exact fun _ => ⟨rfl, rfl, _, rfl⟩
    split
    · exact fun _ => ⟨rfl, rfl, _, rfl⟩
    split
    · intro h
      unfold guardSkipped at h
      simp at h
    · intro h
      exact absurd h (afterGuard_not_guardSkip _ _ _ _ _ _ _)

/-- Witness for C4: a carrier of the marker header is skipped with no
effects; a marked self-sent message is guard-skipped; an unmarked self-sent
message is not guard-skipped. -/
theorem c4_loop_guard_witness :
    ((processEmail cfgA envA msgConf ledgerS).effects = [] ∧
      (processEmail cfgA envA msgConf ledgerS).ledger = ledgerS) ∧
    guardSkipped (processEmail cfgA envA msgSelfMarked ledgerS) ∧
    ¬ guardSkipped (processEmail cfgA envA msgSelfPlain ledgerS) :=
  ⟨⟨(c4_loop_guard.1 cfgA envA msgConf ledgerS (by decide)).2.1,
    (c4_loop_guard.1 cfgA envA msgConf ledgerS (by decide)).2.2⟩,
   c4_loop_guard.2.1 cfgA envA msgSelfMarked ledgerS (by decide) (by decide)
     (by decide),
   c4_loop_guard.2.2.1 cfgA envA msgSelfPlain ledgerS (by decide) (by decide)
     (by decide) (by decide) (by decide) (by decide) (by decide) (by decide)
     (by decide) (by decide)⟩

/-! ## C7: peek-fetch and mark-seen discipline of the poll tick -/

/-- **C7.** In every poll tick, each batch message (fetched with
`BODY.PEEK`, which leaves it unseen) is marked seen exactly when its
attempt's outcome was success-or-skip: the per-message seen flags equal the
per-message success-or-skip outcomes, one per batch message.  In particular
a message whose outcome is `failed` (or whose processing raised) is never
marked seen and remains eligible for the next tick. -/
theorem c7_mark_seen_only_on_success (cfg : EmailConfig)
    (batch : List (EmailMsg × AttemptEnv)) (L : Ledger) :
    (checkInbox cfg batch L).seenFlags =
      (checkInbox cfg batch L).perMessage.map okOutcome ∧
    (checkInbox cfg batch L).perMessage.length = batch.length := by
  induction batch generalizing L with
  | nil => exact ⟨rfl, rfl⟩
  | cons me rest ih =>
    obtain ⟨ih1, ih2⟩ := ih (processEmail cfg me.2 me.1 L).ledger
    simp only [checkInbox]
    split
    · rename_i sm heq
      refine ⟨?_, ?_⟩
      · simp only [List.map_cons, okOutcome, heq]
        rw [ih1]
      · simp [ih2]
    · rename_i e heq
      refine ⟨?_, ?_⟩
      · simp only [List.map_cons, okOutcome, heq]
        rw [ih1]
      · simp [ih2]

/-! ## C3: when the finalize call actually happens -/

theorem finalizeCount_append (a b : List EmailEffect) :
    finalizeCount (a ++ b) = finalizeCount a + finalizeCount b := by
  unfold finalizeCount
  exact List.countP_append _ _ _

theorem uploadStep_finCount (env : AttemptEnv) (fw c : String)
    (m : ParsedTag) (uid : String) (effs : List EmailEffect)
    (rid : Option String) (L1 : Ledger) :
    finalizeCount (uploadStep env fw c m uid effs rid L1).effects =
      finalizeCount effs + 1 ∧
    ((uploadStep env fw c m uid effs rid L1).path = .uploadOk ∨
     (uploadStep env fw c m uid effs rid L1).path = .uploadFailed) := by
  unfold uploadStep
  split
  · exact ⟨by simp [finalizeCount_append, finalizeCount], Or.inl rfl⟩
  · exact ⟨by simp [finalizeCount_append, finalizeCount], Or.inr rfl⟩

theorem resolveAndUpload_finCount (env : AttemptEnv) (fw c : String)
    (m : ParsedTag) (ue : String) (effs : List EmailEffect)
    (rid : Option String) (L1 : Ledger) :
    ((resolveAndUpload env fw c m ue effs rid L1).path = .userCreateFailed ∧
      finalizeCount (resolveAndUpload env fw c m ue effs rid L1).effects =
        finalizeCount effs) ∨
    (((resolveAndUpload env fw c m ue effs rid L1).path = .uploadOk ∨
      (resolveAndUpload env fw c m ue effs rid L1).path = .uploadFailed) ∧
      finalizeCount (resolveAndUpload env fw c m ue effs rid L1).effects =
        finalizeCount effs + 1) := by
  simp only [resolveAndUpload]
  split
  · right
    obtain ⟨hc, hp⟩ := uploadStep_finCount env fw c m _ _ rid L1
    exact ⟨hp, by rw [hc]; simp [finalizeCount_append, finalizeCount]⟩
  split
  · right
    obtain ⟨hc, hp⟩ := uploadStep_finCount env fw c m _ _ rid L1
    exact ⟨hp, by rw [hc]; simp [finalizeCount_append, finalizeCount]⟩
  split
  · right
    obtain ⟨hc, hp⟩ := uploadStep_finCount env fw c m _ _ rid L1
    exact ⟨hp, by rw [hc]; simp [finalizeCount_append, finalizeCount]⟩
  split
  · right
    obtain ⟨hc, hp⟩ := uploadStep_finCount env fw c m _ _ rid L1
    exact ⟨hp, by rw [hc]; simp [finalizeCount_append, finalizeCount]⟩
  · left
    exact ⟨rfl, by simp [finalizeCount_append, finalizeCount]⟩

theorem afterGuard_finCount (cfg : EmailConfig) (env : AttemptEnv)
    (msg : EmailMsg) (fw sub bd : String) (L : Ledger) :
    finalizeCount (processEmailAfterGuard cfg env msg fw sub bd L).effects =
      (if (processEmailAfterGuard cfg env msg fw sub bd L).path = .noAttachment ∨
          (processEmailAfterGuard cfg env msg fw sub bd L).path = .uploadOk ∨
          (processEmailAfterGuard cfg env msg fw sub bd L).path = .uploadFailed
       then 1 else 0) := by
  simp only [processEmailAfterGuard]
  split
  · simp [finalizeCount]
  split
  · simp [finalizeCount_append, finalizeCount]
  split
  · simp [finalizeCount]
  split
  · simp [finalizeCount_append, finalizeCount]
  · rcases resolveAndUpload_finCount env fw _ _ _ _ _ _ with ⟨hp, hc⟩ | ⟨hp, hc⟩
    · rw [hc, hp]
      simp [finalizeCount]
    · rw [hc]
      rcases hp with hp | hp <;> rw [hp] <;> simp [finalizeCount]

/-- **C3 (counterexample).** The claim "`finalize` is called exactly once
per reserved processing attempt, on every terminal path — including the
'no active competition' failure" is false: on this concrete no-competition
run the message is reserved (`should_process=true`), reaches the terminal
`noCompetition` failure, and `_update_email_processing_status` is called
zero times (the record is left `processing`). -/
theorem c3_finalize_counterexample :
    (processEmail cfgA envNoComp msgA []).path = .noCompetition ∧
    (processEmail cfgA envNoComp msgA []).outcome =
      .ok (false, "No active competition found") ∧
    (reservesOf (processEmail cfgA envNoComp msgA []).effects).map Prod.snd =
      [true] ∧
    finalizeCount (processEmail cfgA envNoComp msgA []).effects = 0 := by
  decide

/-- **C3 (amended).** `_update_email_processing_status` is called exactly
once on the `no attachment`, upload-success and upload-failure terminal
paths, and zero times on every other path — in particular zero times on
the `no active competition` and user-creation-failure terminal paths and
on an attempt that raises after its reservation. -/
theorem c3_finalize_per_path (cfg : EmailConfig) (env : AttemptEnv)
    (msg : EmailMsg) (L : Ledger) :
    finalizeCount (processEmail cfg env msg L).effects =
      (if (processEmail cfg env msg L).path = .noAttachment ∨
          (processEmail cfg env msg L).path = .uploadOk ∨
          (processEmail cfg env msg L).path = .uploadFailed
       then 1 else 0) := by
  simp only [processEmail]
  split
  · simp [finalizeCount]
  split
  · simp [finalizeCount]
  split
  · simp [finalizeCount]
  split
  · simp [finalizeCount]
  split
  · simp [finalizeCount]
  · exact afterGuard_finCount _ _ _ _ _ _ _

/-! ## C8: failure isolation in the poll batch -/

theorem notifyCount_append (a b : List EmailEffect) :
    notifyCount (a ++ b) = notifyCount a + notifyCount b := by
  unfold notifyCount
  exact List.countP_append _ _ _

theorem resolveAndUpload_outcome_ok (env : AttemptEnv) (fw c : String)
    (m : ParsedTag) (ue : String) (effs : List EmailEffect)
    (rid : Option String) (L1 : Ledger) :
    ∃ sm, (resolveAndUpload env fw c m ue effs rid L1).outcome = .ok sm := by
  simp only [resolveAndUpload, uploadStep]
  split
  · split <;> exact ⟨_, rfl⟩
  split
  · split <;> exact ⟨_, rfl⟩
  split
  · split <;> exact ⟨_, rfl⟩
  split
  · split <;> exact ⟨_, rfl⟩
  · exact ⟨_, rfl⟩

/-- An attempt whose processing raised made no finalize call and sent no
notification. -/
theorem processEmail_error_effects (cfg : EmailConfig) (env : AttemptEnv)
    (msg : EmailMsg) (L : Ledger) (e : String)
    (h : (processEmail cfg env msg L).outcome = .error e) :
    finalizeCount (processEmail cfg env msg L).effects = 0 ∧
    notifyCount (processEmail cfg env msg L).effects = 0 := by
  revert h
  simp only [processEmail]
  split
  · intro h
    cases h
  split
  · intro h
    cases h
  split
  · intro h
    cases h
  split
  · intro h
    cases h
  split
  · exact fun _ => ⟨rfl, rfl⟩
  · simp only [processEmailAfterGuard]
    split
    · intro h
      cases h
    split
    · intro h
      cases h
    split
    · exact fun _ => ⟨rfl, rfl⟩
    split
    · intro h
      cases h
    · intro h
      obtain ⟨sm, hsm⟩ := resolveAndUpload_outcome_ok env _ _ _ _ _ _ _
      rw [hsm] at h
      cases h

/-- **C8 (counterexample).** The claim that an exception while processing
one message is "converted into a failed finalize plus a failure
notification" is false: in this two-message batch the first message's body
extraction raises; the exception is caught (the tick records one failure
and carries on — the second message is fully processed) but the thrown
message gets neither a finalize call nor a notification, and is left
unseen. -/
theorem c8_isolation_counterexample :
    (checkInbox cfgA [(msgThrow, envA), (msgA, envA)] []).perMessage.length = 2 ∧
    ((checkInbox cfgA [(msgThrow, envA), (msgA, envA)] []).perMessage.getD 0 dpr).outcome =
      .error "boom" ∧
    finalizeCount
      ((checkInbox cfgA [(msgThrow, envA), (msgA, envA)] []).perMessage.getD 0 dpr).effects = 0 ∧
    notifyCount
      ((checkInbox cfgA [(msgThrow, envA), (msgA, envA)] []).perMessage.getD 0 dpr).effects = 0 ∧
    okOutcome ((checkInbox cfgA [(msgThrow, envA), (msgA, envA)] []).perMessage.getD 1 dpr) =
      true ∧
    (checkInbox cfgA [(msgThrow, envA), (msgA, envA)] []).failedCount = 1 ∧
    (checkInbox cfgA [(msgThrow, envA), (msgA, envA)] []).seenFlags = [false, true] := by
  decide

/-- **C8 (amended).** Failure isolation holds, but conversion does not: an
exception raised while processing one message of a batch is caught at the
poll-loop boundary, counted as a failure, and never aborts the remaining
sibling messages (every batch message yields an outcome and the
success/failure counters account for all of them); the thrown message
itself receives no finalize call and no notification — only upload-step
exceptions, caught inside `process_email`, are converted into a failed
finalize plus failure notification. -/
theorem c8_isolation_amended (cfg : EmailConfig)
    (batch : List (EmailMsg × AttemptEnv)) (L : Ledger) :
    (checkInbox cfg batch L).perMessage.length = batch.length ∧
    (checkInbox cfg batch L).succeededCount +
      (checkInbox cfg batch L).failedCount = batch.length ∧
    (∀ pr ∈ (checkInbox cfg batch L).perMessage, ∀ e, pr.outcome = .error e →
      finalizeCount pr.effects = 0 ∧ notifyCount pr.effects = 0) := by
  induction batch generalizing L with
  | nil =>
    refine ⟨rfl, rfl, fun pr hpr e he => ?_⟩
    cases hpr
  | cons me rest ih =>
    obtain ⟨ih1, ih2, ih3⟩ := ih (processEmail cfg me.2 me.1 L).ledger
    simp only [checkInbox]
    split
    · rename_i sm heq
      refine ⟨by simp [ih1], by rcases hb : sm.1 <;> simp [hb] <;> omega,
              fun pr hpr e he => ?_⟩
      rcases List.mem_cons.mp hpr with rfl | hpr'
      · rw [heq] at he
        cases he
      · exact ih3 pr hpr' e he
    · rename_i er heq
      refine ⟨by simp [ih1], by simp; omega, fun pr hpr e he => ?_⟩
      rcases List.mem_cons.mp hpr with rfl | hpr'
      · exact processEmail_error_effects cfg me.2 me.1 L e he
      · exact ih3 pr hpr' e he

/-- Witness for C8 (amended): the thrown message of a concrete batch has
no finalize call and no notification. -/
theorem c8_isolation_amended_witness :
    finalizeCount
      ((checkInbox cfgA [(msgThrow, envA)] []).perMessage.getD 0 dpr).effects = 0 ∧
    notifyCount
      ((checkInbox cfgA [(msgThrow, envA)] []).perMessage.getD 0 dpr).effects = 0 :=
  (c8_isolation_amended cfgA [(msgThrow, envA)] []).2.2
    ((checkInbox cfgA [(msgThrow, envA)] []).perMessage.getD 0 dpr)
    (by decide) "boom" (by decide)

/-! ## C9: the user lookup-then-create race -/

/-- **C9 (code behaviour at the failing input).** When the lookup finds no
user and `create_user_from_email` fails because a concurrent creator won
the uniqueness race (the source swallows the IntegrityError and returns
`None`), the caller does **not** re-run the lookup: the trace shows two
lookups, then two creation attempts, and nothing after them; the message
terminates as a failure ("Failed to create user account ...") with no
finalize call, contrary to the spec's requirement to re-query and proceed
with the existing user's id. -/
theorem c9_user_create_race :
    (processEmail cfgA envRace msgA []).path = .userCreateFailed ∧
    (processEmail cfgA envRace msgA []).outcome =
      .ok (false,
        "Failed to create user account for alice@example.com. Please try again or register manually.") ∧
    userStepsOf (processEmail cfgA envRace msgA []).effects =
      [.lookedUp "alice@example.com" false, .lookedUp "alice@example.com" false,
       .created "alice@example.com" false, .created "alice@example.com" false] ∧
    finalizeCount (processEmail cfgA envRace msgA []).effects = 0 := by
  decide

/-! ## C10: store failure inside the reservation defaults to not
processing -/

/-- **C10.** A store exception anywhere inside
`_reserve_email_processing` — at the lazy table creation, at the
conditional INSERT, at the follow-up SELECT of the existing row (which runs
only when the fingerprint already exists), at the retry UPDATE (which runs
only on the retry path), or an INSERT hitting the `message_id` UNIQUE
constraint — makes the call return `(False, None)` with the ledger
unchanged, so a store failure never grants a processing reservation. -/
theorem c10_reserve_store_error :
    (∀ window now mid fp newId L,
      reserveRun (some .atEnsure) window now mid fp newId L = ((false, none), L)) ∧
    (∀ window now mid fp newId L,
      reserveRun (some .atInsert) window now mid fp newId L = ((false, none), L)) ∧
    (∀ window now mid fp newId L r, findByFp L fp = some r →
      reserveRun (some .atRead) window now mid fp newId L = ((false, none), L)) ∧
    (∀ window now mid fp newId L r, findByFp L fp = some r →
      (r.status = .failed ∨
        (r.status = .processing ∧ window * 60 ≤ now - r.updated_at)) →
      reserveRun (some .atUpdate) window now mid fp newId L = ((false, none), L)) ∧
    (∀ window now mid fp newId L, findByFp L fp = none →
      msgidTaken L mid = true →
      reserveRun none window now mid fp newId L = ((false, none), L)) := by
  refine ⟨fun window now mid fp newId L => by simp [reserveRun],
          fun window now mid fp newId L => by simp [reserveRun],
          fun window now mid fp newId L r hf => by simp [reserveRun, hf],
          fun window now mid fp newId L r hf hcase => ?_,
          fun window now mid fp newId L hf hm => by simp [reserveRun, hf, hm]⟩
  rcases hcase with hfl | ⟨hp, hold⟩
  · have h1 : ¬r.status = EmailStatus.succeeded := by rw [hfl]; simp
    have h2 : ¬(r.status = EmailStatus.processing ∧
        now - r.updated_at < window * 60) := by rw [hfl]; simp
    simp [reserveRun, hf, h1, h2]
  · have h1 : ¬r.status = EmailStatus.succeeded := by rw [hp]; simp
    have h2 : ¬(r.status = EmailStatus.processing ∧
        now - r.updated_at < window * 60) := by
      rintro ⟨-, hlt⟩
      omega
    simp [reserveRun, hf, h1, h2]

/-- Witness for C10: the read-fault conjunct on a one-row ledger. -/
theorem c10_reserve_store_error_witness :
    reserveRun (some .atRead) 30 0 none "fp0" "id1"
        [⟨"id0", none, "fp0", .processing, none, 0, 0⟩] =
      ((false, none), [⟨"id0", none, "fp0", .processing, none, 0, 0⟩]) :=
  c10_reserve_store_error.2.2.1 30 0 none "fp0" "id1"
    [⟨"id0", none, "fp0", .processing, none, 0, 0⟩]
    ⟨"id0", none, "fp0", .processing, none, 0, 0⟩ (by decide)

end TomsGym
